import Mathlib

/-!
# Verification of the tracker CSV codec and streak analyzer

Shallow embedding of the core of the tracker application:
* the CSV row tokenizer (`parseCSVRow`, `escapeCSV` from `core/core-scripts.js`),
* the tabular codec (`convertDataToCSV`, `parseCSVData` from `core/core-scripts.js`),
* the streak analyzer (`calculateStreaks`, `calculateWorkoutStreaks` from
  `habits/habits-scripts.js`),
* the import/rollback routine (`importData` from `core/core-scripts.js`).

JavaScript strings are modelled as `List Char` internally (one `Char` per code
point; all data of interest is ASCII so this coincides with UTF-16 units),
with `String` wrappers at the API boundary.  JavaScript numbers produced by
`parseInt` are modelled as exact integers (`Option Int`, `none` standing for
`NaN`); `null`/`undefined` string slots are modelled as `Option String`.
-/

namespace Tracker

/-! ## Character-level utilities -/

/-- One character of a decimal digit: `'0'`..`'9'` for `d = 0..9`. -/
def digitChar (d : Nat) : Char := Char.ofNat (48 + d)

/-- Numeric value of a character interpreted as a digit in radix `r`
(`none` when it is not a valid digit).  Used by the `parseInt` model. -/
def charDigitVal (r : Nat) (c : Char) : Option Nat :=
  let v : Option Nat :=
    if 48 ≤ c.toNat ∧ c.toNat ≤ 57 then some (c.toNat - 48)
    else if 97 ≤ c.toNat ∧ c.toNat ≤ 102 then some (c.toNat - 87)
    else if 65 ≤ c.toNat ∧ c.toNat ≤ 70 then some (c.toNat - 55)
    else none
  match v with
  | some d => if d < r then some d else none
  | none => none

/-- JavaScript whitespace (the ASCII part), as stripped by `parseInt` and
matched by `String.prototype.trim`. -/
def isJsWs (c : Char) : Bool :=
  c = ' ' ∨ c = '\t' ∨ c = '\n' ∨ c = '\r' ∨ c = '\x0b' ∨ c = '\x0c'

/-- Prepend a character to the first piece of a non-empty list of pieces. -/
def consHead (c : Char) : List (List Char) → List (List Char)
  | [] => [[c]]
  | p :: ps => (c :: p) :: ps

/-- Model of `s.split(sep)` for a single-character separator, e.g. `key.split('_')`. -/
def splitChar (sep : Char) : List Char → List (List Char)
  | [] => [[]]
  | c :: rest => if c = sep then [] :: splitChar sep rest else consHead c (splitChar sep rest)

/-- Model of `csvData.split(/\r?\n/)`: split on `'\n'`, consuming one `'\r'`
immediately before each `'\n'`. -/
def splitLines : List Char → List (List Char)
  | [] => [[]]
  | [c] => if c = '\n' then [[], []] else [[c]]
  | c :: c2 :: rest =>
    if c = '\r' ∧ c2 = '\n' then [] :: splitLines rest
    else if c = '\n' then [] :: splitLines (c2 :: rest)
    else consHead c (splitLines (c2 :: rest))

/-- Join pieces with a separator character (`Array.prototype.join`). -/
def joinChar (sep : Char) : List (List Char) → List Char
  | [] => []
  | [p] => p
  | p :: ps => p ++ sep :: joinChar sep ps

/-- Test for `!row.trim()`: the row consists entirely of whitespace. -/
def jsIsBlank (s : List Char) : Bool := s.all isJsWs

/-- Lexicographic comparison of strings by code point, i.e. the default
JavaScript `<` / `Array.prototype.sort()` comparison on strings. -/
def jsStrLt : List Char → List Char → Bool
  | [], [] => false
  | [], _ :: _ => true
  | _ :: _, [] => false
  | a :: as, b :: bs =>
    if a.toNat < b.toNat then true
    else if b.toNat < a.toNat then false
    else jsStrLt as bs

def jsStrLe (a b : List Char) : Bool := !jsStrLt b a

/-! ## Decimal rendering and `parseInt` -/

/-- Little-endian decimal digits of `n` (with `fuel ≥ n` as recursion fuel). -/
def natDigitsRev : Nat → Nat → List Nat
  | 0, _ => []
  | _ + 1, 0 => []
  | fuel + 1, n + 1 => ((n + 1) % 10) :: natDigitsRev fuel ((n + 1) / 10)

/-- Big-endian decimal digits of `n` (the digits of `String(n)`). -/
def natDecimalDigits (n : Nat) : List Nat :=
  if n = 0 then [0] else (natDigitsRev n n).reverse

/-- Decimal rendering `String(n)` of a natural number. -/
def natDecimal (n : Nat) : List Char := (natDecimalDigits n).map digitChar

/-- Decimal rendering `String(i)` of an integer-valued JavaScript number. -/
def intDecimal (i : Int) : List Char :=
  if i < 0 then '-' :: natDecimal i.natAbs else natDecimal i.natAbs

/-- Maximal prefix of digits valid in radix `r`; returns their value
accumulated left-to-right together with the count of digits consumed. -/
def takeDigits (r : Nat) : List Char → Nat → Nat × Nat
  | [], acc => (acc, 0)
  | c :: rest, acc =>
    match charDigitVal r c with
    | some d => let vk := takeDigits r rest (acc * r + d); (vk.1, vk.2 + 1)
    | none => (acc, 0)

/-- Model of `parseInt(s)` with no radix argument: skip whitespace, optional sign,
optional `0x`/`0X` hex prefix, then the maximal run of digits; `none` is
`NaN`.  Values are exact integers (no float rounding). -/
def headIs (c : Char) : List Char → Bool
  | [] => false
  | a :: _ => a = c

def jsParseIntChars (s : List Char) : Option Int :=
  let s1 := s.dropWhile isJsWs
  let neg := headIs '-' s1
  let s2 := if neg || headIs '+' s1 then s1.tail else s1
  let hex := headIs '0' s2 && (headIs 'x' s2.tail || headIs 'X' s2.tail)
  let r : Nat := if hex then 16 else 10
  let s3 := if hex then s2.tail.tail else s2
  let vk := takeDigits r s3 0
  if vk.2 = 0 then none
  else some (if neg then -(vk.1 : Int) else (vk.1 : Int))

def jsParseInt (s : String) : Option Int := jsParseIntChars s.data

/-! ## CSV row tokenizer (`parseCSVRow`, `escapeCSV`) -/

/-- The scan loop of `parseCSVRow` (core-scripts.js, lines 952–993):
a `""` pair always emits one literal quote and advances two characters
(the source does **not** consult `insideQuotes` for this check); a lone
quote toggles `insideQuotes`; a comma outside quotes ends the field;
everything else is appended to the current field. -/
def parseRowAux : List Char → Bool → List Char → List (List Char)
  | [], _, cur => [cur]
  | [c], inside, cur =>
    if c = '"' then [cur]
    else if c = ',' ∧ inside = false then [cur, []]
    else [cur ++ [c]]
  | c :: c2 :: rest, inside, cur =>
    if c = '"' then
      if c2 = '"' then parseRowAux rest inside (cur ++ ['"'])
      else parseRowAux (c2 :: rest) (!inside) cur
    else if c = ',' ∧ inside = false then cur :: parseRowAux (c2 :: rest) inside []
    else parseRowAux (c2 :: rest) inside (cur ++ [c])

/-- Function `parseCSVRow(row)`: split one CSV line into fields, handling quotes. -/
def parseCSVRow (row : String) : List String :=
  (parseRowAux row.data false []).map String.mk

/-- Double every quote character (`value.replace(/"/g, '""')`). -/
def dblQuotes : List Char → List Char
  | [] => []
  | '"' :: rest => '"' :: '"' :: dblQuotes rest
  | c :: rest => c :: dblQuotes rest

/-- Core of `escapeCSV(value)` on an already-stringified value: wrap in quotes and
double internal quotes when the value contains a comma, quote or newline. -/
def escapeCSVChars (s : List Char) : List Char :=
  if s.any (fun c => c = ',' ∨ c = '"' ∨ c = '\n') then
    '"' :: dblQuotes s ++ ['"']
  else s

/-- Function `escapeCSV(value)` including the `null`/`undefined` ↦ `''` rule. -/
def escapeCSV (v : Option String) : String :=
  match v with
  | none => ""
  | some s => String.mk (escapeCSVChars s.data)

/-- Join a field list with commas after escaping each field
(`fields.map(escapeCSV).join(',')`). -/
def joinEscaped (F : List String) : String :=
  String.mk (joinChar ',' (F.map (fun f => escapeCSVChars f.data)))

/-- Test whether a string is a non-empty run of double quotes (the field shape
on which the tokenizer's greedy quote-pairing loses a round trip). -/
def isAllQuotes (s : List Char) : Bool := !s.isEmpty && s.all (· = '"')

/-! ### Scan lemmas for the tokenizer -/

theorem parseRowAux_nil (inside : Bool) (cur : List Char) :
    parseRowAux [] inside cur = [cur] := rfl

theorem dblQuotes_other {c : Char} (rest : List Char) (hq : c ≠ '"') :
    dblQuotes (c :: rest) = c :: dblQuotes rest := by
  rw [dblQuotes.eq_def]
  split <;> simp_all

theorem parseRowAux_other {c : Char} (rest : List Char) (inside : Bool) (cur : List Char)
    (hq : c ≠ '"') (hc : ¬(c = ',' ∧ inside = false)) :
    parseRowAux (c :: rest) inside cur = parseRowAux rest inside (cur ++ [c]) := by
  cases rest with
  | nil => simp only [parseRowAux]; rw [if_neg hq, if_neg hc]
  | cons c2 rest2 => simp only [parseRowAux]; rw [if_neg hq, if_neg hc]

theorem parseRowAux_comma (rest : List Char) (cur : List Char) :
    parseRowAux (',' :: rest) false cur = cur :: parseRowAux rest false [] := by
  cases rest with
  | nil => simp [parseRowAux]
  | cons c2 rest2 => simp [parseRowAux]

theorem parseRowAux_pair (rest : List Char) (inside : Bool) (cur : List Char) :
    parseRowAux ('"' :: '"' :: rest) inside cur = parseRowAux rest inside (cur ++ ['"']) := by
  simp [parseRowAux]

theorem parseRowAux_lone (rest : List Char) (inside : Bool) (cur : List Char)
    (h : rest.head? ≠ some '"') :
    parseRowAux ('"' :: rest) inside cur = parseRowAux rest (!inside) cur := by
  cases rest with
  | nil => rfl
  | cons c2 rest2 =>
    have hc2 : c2 ≠ '"' := by simpa using h
    simp [parseRowAux, hc2]

/-- Scanning a run of plain characters (no quote, no comma) outside quotes
just appends them to the current field. -/
theorem parseRowAux_plain (f : List Char) (hf : ∀ c ∈ f, c ≠ '"' ∧ c ≠ ',') :
    ∀ tail cur, parseRowAux (f ++ tail) false cur = parseRowAux tail false (cur ++ f) := by
  induction f with
  | nil => intro tail cur; simp
  | cons c f ih =>
    intro tail cur
    obtain ⟨hq, hc⟩ := hf c (by simp)
    rw [List.cons_append, parseRowAux_other (f ++ tail) false cur hq (by simp [hc]),
      ih (fun x hx => hf x (by simp [hx]))]
    simp

/-- Scanning non-quote characters while inside quotes appends them (including
commas). -/
theorem parseRowAux_inside (f : List Char) (hf : ∀ c ∈ f, c ≠ '"') :
    ∀ tail cur, parseRowAux (f ++ tail) true cur = parseRowAux tail true (cur ++ f) := by
  induction f with
  | nil => intro tail cur; simp
  | cons c f ih =>
    intro tail cur
    rw [List.cons_append, parseRowAux_other (f ++ tail) true cur (hf c (by simp)) (by simp),
      ih (fun x hx => hf x (by simp [hx]))]
    simp

/-- Scanning the quote-doubled content of a field while inside quotes, up to
the closing quote, recovers the field verbatim (the next character after the
closing quote must not be a quote, i.e. a comma or the end of the line). -/
theorem parseRowAux_dbl (f : List Char) :
    ∀ tail cur, tail.head? ≠ some '"' →
      parseRowAux (dblQuotes f ++ ('"' :: tail)) true cur = parseRowAux tail false (cur ++ f) := by
  induction f with
  | nil =>
    intro tail cur htail
    simpa using parseRowAux_lone tail true cur htail
  | cons c f ih =>
    intro tail cur htail
    by_cases hc : c = '"'
    · subst hc
      show parseRowAux (dblQuotes ('"' :: f) ++ ('"' :: tail)) true cur = _
      rw [dblQuotes]
      simp only [List.cons_append]
      rw [parseRowAux_pair, ih tail (cur ++ ['"']) htail]
      simp
    · rw [dblQuotes_other f hc]
      simp only [List.cons_append]
      rw [parseRowAux_other (dblQuotes f ++ ('"' :: tail)) true cur hc (by simp),
        ih tail (cur ++ [c]) htail]
      simp

/-- Scanning a whole quoted field (opening quote, doubled content, closing
quote) from outside quotes recovers the field, provided the field is not a
non-empty all-quote run (on those the greedy pairing misparses). -/
theorem parseRowAux_quoted (f : List Char) (hnq : f.all (· = '"') = false) :
    ∀ tail cur, tail.head? ≠ some '"' →
      parseRowAux ('"' :: (dblQuotes f ++ ('"' :: tail))) false cur
        = parseRowAux tail false (cur ++ f) := by
  induction f with
  | nil => simp at hnq
  | cons c f ih =>
    intro tail cur htail
    by_cases hc : c = '"'
    · subst hc
      have hnq' : f.all (· = '"') = false := by simpa using hnq
      show parseRowAux ('"' :: (dblQuotes ('"' :: f) ++ ('"' :: tail))) false cur = _
      rw [dblQuotes]
      simp only [List.cons_append]
      rw [parseRowAux_pair]
      have := ih hnq' tail (cur ++ ['"']) htail
      simp only [List.cons_append] at this
      rw [this]
      simp
    · rw [dblQuotes_other f hc]
      simp only [List.cons_append]
      rw [parseRowAux_lone (c :: (dblQuotes f ++ ('"' :: tail))) false cur (by simpa using hc)]
      simp only [Bool.not_false]
      rw [parseRowAux_other (dblQuotes f ++ ('"' :: tail)) true cur hc (by simp),
        parseRowAux_dbl f tail (cur ++ [c]) htail]
      simp

/-- Scanning one escaped field followed by a tail whose head is not a quote
appends the original field to the current buffer. -/
theorem parseRowAux_field (f : List Char) (hok : isAllQuotes f = false) :
    ∀ tail cur, tail.head? ≠ some '"' →
      parseRowAux (escapeCSVChars f ++ tail) false cur = parseRowAux tail false (cur ++ f) := by
  intro tail cur htail
  by_cases hsp : f.any (fun c => c = ',' ∨ c = '"' ∨ c = '\n') = true
  · have hne : f ≠ [] := by
      intro hf
      subst hf
      simp at hsp
    have hnq : f.all (· = '"') = false := by
      unfold isAllQuotes at hok
      rcases Bool.and_eq_false_iff.mp hok with h | h
      · exact absurd (by simpa [List.isEmpty_iff] using h) hne
      · exact h
    rw [escapeCSVChars, if_pos hsp]
    have hq := parseRowAux_quoted f hnq tail cur htail
    simp only [List.cons_append, List.append_assoc, List.singleton_append] at hq ⊢
    exact hq
  · have hplain : ∀ c ∈ f, c ≠ '"' ∧ c ≠ ',' := by
      intro c hcmem
      constructor
      · intro h
        exact hsp (List.any_eq_true.mpr ⟨c, hcmem, by simp [h]⟩)
      · intro h
        exact hsp (List.any_eq_true.mpr ⟨c, hcmem, by simp [h]⟩)
    rw [escapeCSVChars, if_neg hsp]
    exact parseRowAux_plain f hplain tail cur

/-- Round trip of a full joined row at the character level. -/
theorem parseRowAux_join (f : List Char) (F : List (List Char))
    (hok : ∀ g ∈ f :: F, isAllQuotes g = false) :
    parseRowAux (joinChar ',' ((f :: F).map escapeCSVChars)) false [] = f :: F := by
  induction F generalizing f with
  | nil =>
    have h := parseRowAux_field f (hok f (by simp)) [] [] (by simp)
    simpa [joinChar] using h
  | cons g F ih =>
    have hjoin : joinChar ',' ((f :: g :: F).map escapeCSVChars)
        = escapeCSVChars f ++ (',' :: joinChar ',' ((g :: F).map escapeCSVChars)) := by
      simp [joinChar]
    rw [hjoin, parseRowAux_field f (hok f (by simp)) _ [] (by simp),
      List.nil_append, parseRowAux_comma, ih g (fun x hx => hok x (by simp at hx ⊢; tauto))]


/-- Rebuilding a string from its character data is the identity. -/
theorem mk_data (s : String) : String.mk s.data = s := rfl

/-! ### C2: escape/parse round trip -/

/-- C2 counterexample: the single-field list whose field is one double-quote
character satisfies the claim's no-embedded-newline hypothesis, yet
`parseCSVRow(joinEscaped(F))` returns `[""]` (two quotes), not `F`: the
tokenizer pairs the first two quotes of `""""` greedily even though it is not
inside quotes. -/
theorem c2_roundtrip_counterexample :
    (∀ f ∈ (["\""] : List String), ¬ f.data.contains '\n') ∧
      parseCSVRow (joinEscaped ["\""]) = ["\"\""] ∧
      parseCSVRow (joinEscaped ["\""]) ≠ ["\""] := by decide

/-- C2 (amended): for every non-empty list of fields, none of which is a
non-empty run consisting solely of double quotes, parsing the comma-join of
the escaped fields returns exactly the original field list.  (The all-quotes
exclusion is forced by the counterexample; embedded newlines need not be
excluded at the single-row level, so the amended hypothesis set is otherwise
unchanged.) -/
theorem c2_roundtrip_amended (F : List String) (hne : F ≠ [])
    (hok : ∀ f ∈ F, isAllQuotes f.data = false) :
    parseCSVRow (joinEscaped F) = F := by
  obtain ⟨f, F', rfl⟩ : ∃ f F', F = f :: F' := by
    cases F with
    | nil => exact absurd rfl hne
    | cons a b => exact ⟨a, b, rfl⟩
  have hok' : ∀ g ∈ f.data :: F'.map String.data, isAllQuotes g = false := by
    intro g hg
    rcases List.mem_cons.mp hg with rfl | hg
    · exact hok f (by simp)
    · rcases List.mem_map.mp hg with ⟨t, ht, rfl⟩
      exact hok t (by simp [ht])
  have hj := parseRowAux_join f.data (F'.map String.data) hok'
  show (parseRowAux (String.mk (joinChar ',' ((f :: F').map
      (fun g => escapeCSVChars g.data)))).data false []).map String.mk = f :: F'
  have hmap : (f :: F').map (fun g => escapeCSVChars g.data)
      = (f.data :: F'.map String.data).map escapeCSVChars := by
    simp [List.map_map]
  rw [show (String.mk (joinChar ',' ((f :: F').map (fun g => escapeCSVChars g.data)))).data
      = joinChar ',' ((f :: F').map (fun g => escapeCSVChars g.data)) from rfl, hmap, hj]
  simp [List.map_map, mk_data]
  rw [show (String.mk ∘ String.data) = id from funext mk_data, List.map_id]

/-- C2 witness: the amended round trip evaluated on a concrete field list with
a comma and an internal quote. -/
theorem c2_roundtrip_amended_witness :
    (["a", "b,c", "d\"e"] : List String) ≠ [] ∧
      (∀ f ∈ (["a", "b,c", "d\"e"] : List String), isAllQuotes f.data = false) ∧
      parseCSVRow (joinEscaped ["a", "b,c", "d\"e"]) = ["a", "b,c", "d\"e"] :=
  ⟨by decide, by decide, c2_roundtrip_amended _ (by decide) (by decide)⟩

/-! ### C7: the tokenizer versus the specified reference scan -/

/-- Reference scan as described by the specification: identical to the source
scan except that the two-quote lookahead is consulted **only while inside
quotes** ("toggles the flag unless it is immediately followed by another quote
while inside quotes"). -/
def specRowScanAux : List Char → Bool → List Char → List (List Char)
  | [], _, cur => [cur]
  | [c], inside, cur =>
    if c = '"' then [cur]
    else if c = ',' ∧ inside = false then [cur, []]
    else [cur ++ [c]]
  | c :: c2 :: rest, inside, cur =>
    if c = '"' then
      if inside = true ∧ c2 = '"' then specRowScanAux rest inside (cur ++ ['"'])
      else specRowScanAux (c2 :: rest) (!inside) cur
    else if c = ',' ∧ inside = false then cur :: specRowScanAux (c2 :: rest) inside []
    else specRowScanAux (c2 :: rest) inside (cur ++ [c])

/-- Reference scan of the claim, at the string level. -/
def specRowScan (row : String) : List String :=
  (specRowScanAux row.data false []).map String.mk

/-- Amended reference scan: a one-character-at-a-time left-to-right automaton
in which a quote immediately followed by another quote is paired into one
literal quote **regardless** of the `insideQuotes` flag.  The `pending` flag
records a just-seen quote whose pairing is not yet decided; a pending quote
that is not paired acts as a toggle and the current character is re-dispatched. -/
def amendedScanAux : List Char → Bool → Bool → List Char → List (List Char)
  | [], _, _, cur => [cur]
  | c :: rest, inside, true, cur =>
    if c = '"' then amendedScanAux rest inside false (cur ++ ['"'])
    else amendedScanAux (c :: rest) (!inside) false cur
  | c :: rest, inside, false, cur =>
    if c = '"' then amendedScanAux rest inside true cur
    else if c = ',' ∧ inside = false then cur :: amendedScanAux rest inside false []
    else amendedScanAux rest inside false (cur ++ [c])
termination_by cs _ pending => (cs.length, if pending then 1 else 0)
decreasing_by all_goals (simp only [List.length_cons, if_true, if_false]; first
  | exact Prod.Lex.left _ _ (by omega)
  | exact Prod.Lex.right _ (by omega))

/-- Amended reference scan at the string level. -/
def amendedRowScan (row : String) : List String :=
  (amendedScanAux row.data false false []).map String.mk

theorem amendedScanAux_eq (cs : List Char) : ∀ inside cur,
    amendedScanAux cs inside false cur = parseRowAux cs inside cur ∧
      amendedScanAux cs inside true cur = parseRowAux ('"' :: cs) inside cur := by
  induction cs with
  | nil =>
    intro inside cur
    constructor <;> simp [amendedScanAux, parseRowAux]
  | cons c cs ih =>
    intro inside cur
    have comp1 : ∀ (inside : Bool) (cur : List Char),
        amendedScanAux (c :: cs) inside false cur = parseRowAux (c :: cs) inside cur := by
      intro inside cur
      by_cases hq : c = '"'
      · subst hq
        have h1 : amendedScanAux ('"' :: cs) inside false cur
            = amendedScanAux cs inside true cur := by
          simp [amendedScanAux]
        rw [h1, (ih inside cur).2]
      · by_cases hcm : c = ',' ∧ inside = false
        · obtain ⟨rfl, rfl⟩ := hcm
          have h1 : amendedScanAux (',' :: cs) false false cur
              = cur :: amendedScanAux cs false false [] := by
            simp [amendedScanAux]
          rw [h1, (ih false []).1, parseRowAux_comma]
        · have h1 : amendedScanAux (c :: cs) inside false cur
              = amendedScanAux cs inside false (cur ++ [c]) := by
            simp only [amendedScanAux]
            rw [if_neg hq, if_neg hcm]
          rw [h1, (ih inside (cur ++ [c])).1, parseRowAux_other cs inside cur hq hcm]
    refine ⟨comp1 inside cur, ?_⟩
    by_cases hq : c = '"'
    · subst hq
      have h1 : amendedScanAux ('"' :: cs) inside true cur
          = amendedScanAux cs inside false (cur ++ ['"']) := by
        simp [amendedScanAux]
      rw [h1, (ih inside (cur ++ ['"'])).1, parseRowAux_pair]
    · have h1 : amendedScanAux (c :: cs) inside true cur
          = amendedScanAux (c :: cs) (!inside) false cur := by
        simp only [amendedScanAux]
        rw [if_neg hq]
      rw [h1, comp1 (!inside) cur,
        parseRowAux_lone (c :: cs) inside cur (by simpa using hq)]

/-- C7 counterexample: on the input `""a` the source tokenizer pairs the first
two quotes (emitting a literal quote while outside quotes) and returns
`["a`, while the reference scan described by the claim toggles twice and
returns `a`. -/
theorem c7_scan_counterexample :
    parseCSVRow "\"\"a" = ["\"a"] ∧ specRowScan "\"\"a" = ["a"] ∧
      parseCSVRow "\"\"a" ≠ specRowScan "\"\"a" := by decide

/-- C7 (amended): `parseCSVRow` is the single left-to-right scan in which a
quote immediately followed by another quote always emits one literal quote and
advances two characters, regardless of the `insideQuotes` flag; otherwise a
quote toggles the flag, a comma outside quotes ends the field, and any other
character is appended to the current field. -/
theorem c7_scan_amended (s : String) : parseCSVRow s = amendedRowScan s := by
  unfold parseCSVRow amendedRowScan
  rw [(amendedScanAux_eq s.data false []).1]

/-! ### C8: totality of the tokenizer -/

theorem parseRowAux_length_pos (cs : List Char) (inside : Bool) (cur : List Char) :
    1 ≤ (parseRowAux cs inside cur).length := by
  induction cs, inside, cur using parseRowAux.induct <;> simp [parseRowAux, *]

/-- C8: `parseCSVRow` is total and never fails: every input yields at least
one field, the empty string yields `[""]`, and an unterminated quoted field
consumes the remainder of the line (including commas) into the final field
without an error. -/
theorem c8_parse_total :
    (∀ s : String, 1 ≤ (parseCSVRow s).length) ∧
      parseCSVRow "" = [""] ∧ parseCSVRow "\"a,b" = ["a,b"] := by
  refine ⟨fun s => ?_, by decide, by decide⟩
  unfold parseCSVRow
  simpa using parseRowAux_length_pos s.data false []

/-! ## Streak analyzer (`calculateStreaks`, `calculateWorkoutStreaks`) -/

/-- Streak record produced by the analyzers:
`{ start: DateKey, end: DateKey, length: n }`. -/
structure Streak where
  start : String
  endDate : String
  length : Nat
deriving DecidableEq, Repr

/-- Strict well-formed parse of a `YYYY-MM-DD` date key to a civil day number
(days since 1970-01-01, Howard Hinnant's `days_from_civil` on the proleptic
Gregorian calendar), the day arithmetic `new Date(key)` performs on such keys.
Any other string is `none`, standing for an invalid date (`NaN` time). -/
def toDayNumber (s : String) : Option Int :=
  match s.data with
  | [y1, y2, y3, y4, '-', m1, m2, '-', d1, d2] =>
    match charDigitVal 10 y1, charDigitVal 10 y2, charDigitVal 10 y3, charDigitVal 10 y4,
        charDigitVal 10 m1, charDigitVal 10 m2, charDigitVal 10 d1, charDigitVal 10 d2 with
    | some a, some b, some c, some d, some e, some f, some g, some h =>
      let y : Int := ((a * 10 + b) * 10 + c) * 10 + d
      let m : Int := e * 10 + f
      let dd : Int := g * 10 + h
      let leap : Bool := (y % 4 = 0 ∧ y % 100 ≠ 0) ∨ y % 400 = 0
      let mlen : Int :=
        if m = 2 then (if leap then 29 else 28)
        else if m = 4 ∨ m = 6 ∨ m = 9 ∨ m = 11 then 30
        else 31
      if 1 ≤ m ∧ m ≤ 12 ∧ 1 ≤ dd ∧ dd ≤ mlen then
        let y' : Int := if m ≤ 2 then y - 1 else y
        let era : Int := Int.fdiv y' 400
        let yoe : Int := y' - era * 400
        let mp : Int := if m > 2 then m - 3 else m + 9
        let doy : Int := (153 * mp + 2) / 5 + dd - 1
        let doe : Int := yoe * 365 + yoe / 4 - yoe / 100 + doy
        some (era * 146097 + doe - 719468)
      else none
    | _, _, _, _, _, _, _, _ => none
  | _ => none

/-- Consecutive-day test of the scan (`currentDate.getTime() === nextDay.getTime()`
with `nextDay = end + 1 day`): true iff both keys parse as dates and `d` is the
calendar day after `e`.  Comparisons involving `NaN` are false. -/
def isNextDay (e d : String) : Bool :=
  match toDayNumber e, toDayNumber d with
  | some b, some a => a = b + 1
  | _, _ => false

/-- Scan phase shared by `calculateStreaks` and the workout variants:
fold the ascending date list, extending the open streak on a consecutive day,
otherwise pushing it and opening a new one; the final open streak is pushed. -/
def streakScan : List String → Option Streak → List Streak
  | [], none => []
  | [], some c => [c]
  | d :: rest, none => streakScan rest (some ⟨d, d, 1⟩)
  | d :: rest, some c =>
    if isNextDay c.endDate d then streakScan rest (some ⟨c.start, d, c.length + 1⟩)
    else c :: streakScan rest (some ⟨d, d, 1⟩)

/-- Stable insertion into an ascending list (used to model the default
lexicographic `Array.prototype.sort()`; date keys are pairwise distinct). -/
def insertAsc (d : String) : List String → List String
  | [] => [d]
  | e :: rest => if jsStrLt e.data d.data then e :: insertAsc d rest else d :: e :: rest

/-- Ascending lexicographic sort (`sortedDates.sort()`). -/
def sortAsc (l : List String) : List String := l.foldr insertAsc []

/-- Stable insertion for the descending-by-length result sort: an element is
placed after every already-placed element of length `≥` its own, matching the
stable JavaScript sort with comparator `(a, b) => b.length - a.length`. -/
def insertLenDesc (s : Streak) : List Streak → List Streak
  | [] => [s]
  | t :: rest => if s.length < t.length then t :: insertLenDesc s rest else s :: t :: rest

/-- Descending-by-length stable sort (`streaks.sort((a, b) => b.length - a.length)`). -/
def sortLenDesc (l : List Streak) : List Streak := l.foldr insertLenDesc []

/-- Function `calculateStreaks(history)` (habits-scripts.js, lines 1886–1920):
filter the history to `done` entries, sort the date keys ascending, scan for
consecutive runs, and sort the runs by length descending. -/
def calculateStreaks (history : List (String × String)) : List Streak :=
  sortLenDesc (streakScan (sortAsc ((history.filter (fun p => p.2 = "done")).map (·.1))) none)

/-! ### Order lemmas for the string comparison -/

theorem jsStrLt_irrefl : ∀ a, jsStrLt a a = false := by
  intro a
  induction a with
  | nil => rfl
  | cons c cs ih => simp [jsStrLt, ih]

theorem jsStrLt_trans : ∀ a b c, jsStrLt a b = true → jsStrLt b c = true →
    jsStrLt a c = true := by
  intro a
  induction a with
  | nil =>
    intro b c hab hbc
    cases b with
    | nil => exact absurd hab (by simp [jsStrLt])
    | cons y ys =>
      cases c with
      | nil => exact absurd hbc (by simp [jsStrLt])
      | cons z zs => simp [jsStrLt]
  | cons x xs ih =>
    intro b c hab hbc
    cases b with
    | nil => exact absurd hab (by simp [jsStrLt])
    | cons y ys =>
      cases c with
      | nil => exact absurd hbc (by simp [jsStrLt])
      | cons z zs =>
        simp only [jsStrLt] at hab hbc ⊢
        by_cases hxy : x.toNat < y.toNat
        · by_cases hyz : y.toNat < z.toNat
          · rw [if_pos (by omega)]
          · rw [if_neg hyz] at hbc
            by_cases hzy : z.toNat < y.toNat
            · simp [hzy] at hbc
            · rw [if_pos (by omega)]
        · rw [if_neg hxy] at hab
          by_cases hyx : y.toNat < x.toNat
          · simp [hyx] at hab
          · by_cases hyz : y.toNat < z.toNat
            · rw [if_pos (by omega)]
            · rw [if_neg hyz] at hbc
              by_cases hzy : z.toNat < y.toNat
              · simp [hzy] at hbc
              · rw [if_neg hyx] at hab
                rw [if_neg hzy] at hbc
                rw [if_neg (by omega), if_neg (by omega)]
                exact ih ys zs hab hbc

theorem char_eq_of_toNat_eq {a b : Char} (h : a.toNat = b.toNat) : a = b := by
  apply Char.ext
  exact UInt32.ext h

theorem jsStrLt_total : ∀ a b, jsStrLt a b = false → jsStrLt b a = false → a = b := by
  intro a
  induction a with
  | nil =>
    intro b hab _
    cases b with
    | nil => rfl
    | cons y ys => simp [jsStrLt] at hab
  | cons x xs ih =>
    intro b hab hba
    cases b with
    | nil => simp [jsStrLt] at hba
    | cons y ys =>
      simp only [jsStrLt] at hab hba
      by_cases hxy : x.toNat < y.toNat
      · simp [hxy] at hab
      · by_cases hyx : y.toNat < x.toNat
        · simp [hyx] at hba
        · rw [if_neg hxy, if_neg hyx] at hab
          rw [if_neg hyx, if_neg hxy] at hba
          rw [char_eq_of_toNat_eq (by omega : x.toNat = y.toNat), ih ys hab hba]

theorem jsStrLe_refl (a : List Char) : jsStrLe a a = true := by
  simp [jsStrLe, jsStrLt_irrefl]

theorem jsStrLe_trans {a b c : List Char} (hab : jsStrLe a b = true)
    (hbc : jsStrLe b c = true) : jsStrLe a c = true := by
  simp only [jsStrLe, Bool.not_eq_true'] at hab hbc ⊢
  by_cases hca : jsStrLt c a = true
  · by_cases hABlt : jsStrLt a b = true
    · exact absurd (jsStrLt_trans c a b hca hABlt) (by simp [hbc])
    · have heq := jsStrLt_total a b (by simpa using hABlt) hab
      subst heq
      exact absurd hca (by simp [hbc])
  · simpa using hca


/-! ### Sort lemmas -/

theorem mem_insertAsc {x d : String} {l : List String} :
    x ∈ insertAsc d l ↔ x = d ∨ x ∈ l := by
  induction l with
  | nil => simp [insertAsc]
  | cons e rest ih =>
    simp only [insertAsc]
    split
    · rw [List.mem_cons, ih, List.mem_cons]
      tauto
    · rw [List.mem_cons, List.mem_cons]

theorem mem_sortAsc {x : String} {l : List String} : x ∈ sortAsc l ↔ x ∈ l := by
  induction l with
  | nil => simp [sortAsc]
  | cons d rest ih =>
    show x ∈ insertAsc d (sortAsc rest) ↔ _
    rw [mem_insertAsc]
    simp [ih]

theorem length_insertAsc (d : String) (l : List String) :
    (insertAsc d l).length = l.length + 1 := by
  induction l with
  | nil => rfl
  | cons e rest ih =>
    simp only [insertAsc]
    split <;> simp [ih]

theorem length_sortAsc (l : List String) : (sortAsc l).length = l.length := by
  induction l with
  | nil => rfl
  | cons d rest ih =>
    show (insertAsc d (sortAsc rest)).length = _
    rw [length_insertAsc, ih]
    rfl

/-- Ascending order produced by the insertion sort, as a pairwise bound. -/
def AscSorted (l : List String) : Prop :=
  l.Pairwise (fun a b => jsStrLe a.data b.data = true)

theorem ascSorted_insertAsc {d : String} {l : List String} (hl : AscSorted l) :
    AscSorted (insertAsc d l) := by
  induction l with
  | nil => simp [AscSorted, insertAsc]
  | cons e rest ih =>
    rcases List.pairwise_cons.mp hl with ⟨hle, hrest⟩
    simp only [insertAsc]
    split
    · rename_i hlt
      refine List.pairwise_cons.mpr ⟨?_, ih hrest⟩
      intro x hx
      rcases mem_insertAsc.mp hx with rfl | hx
      · simp only [jsStrLe, Bool.not_eq_true']
        by_contra hcon
        simp only [Bool.not_eq_false] at hcon
        exact absurd (jsStrLt_trans _ _ _ hcon hlt) (by simp [jsStrLt_irrefl])
      · exact hle x hx
    · rename_i hnlt
      refine List.pairwise_cons.mpr ⟨?_, hl⟩
      intro x hx
      have hde : jsStrLe d.data e.data = true := by
        simp [jsStrLe]
        simpa using hnlt
      rcases List.mem_cons.mp hx with rfl | hx
      · exact hde
      · exact jsStrLe_trans hde (hle x hx)

theorem ascSorted_sortAsc (l : List String) : AscSorted (sortAsc l) := by
  induction l with
  | nil => simp [sortAsc, AscSorted]
  | cons d rest ih => exact ascSorted_insertAsc ih

theorem mem_insertLenDesc {x s : Streak} {l : List Streak} :
    x ∈ insertLenDesc s l ↔ x = s ∨ x ∈ l := by
  induction l with
  | nil => simp [insertLenDesc]
  | cons t rest ih =>
    simp only [insertLenDesc]
    split
    · rw [List.mem_cons, ih, List.mem_cons]
      tauto
    · rw [List.mem_cons, List.mem_cons]

theorem mem_sortLenDesc {x : Streak} {l : List Streak} : x ∈ sortLenDesc l ↔ x ∈ l := by
  induction l with
  | nil => simp [sortLenDesc]
  | cons s rest ih =>
    show x ∈ insertLenDesc s (sortLenDesc rest) ↔ _
    rw [mem_insertLenDesc]
    simp [ih]

theorem sum_insertLenDesc (s : Streak) (l : List Streak) :
    ((insertLenDesc s l).map Streak.length).sum = s.length + (l.map Streak.length).sum := by
  induction l with
  | nil => simp [insertLenDesc]
  | cons t rest ih =>
    simp only [insertLenDesc]
    split
    · simp [ih]
      omega
    · simp [ih]

theorem sum_sortLenDesc (l : List Streak) :
    ((sortLenDesc l).map Streak.length).sum = (l.map Streak.length).sum := by
  induction l with
  | nil => rfl
  | cons s rest ih =>
    show ((insertLenDesc s (sortLenDesc rest)).map Streak.length).sum = _
    rw [sum_insertLenDesc, ih]
    simp

/-! ### C3: the habit streak analyzer -/

/-- Reference grouping of a sorted date list into maximal consecutive runs,
written as a direct recursion carrying the open run explicitly (start, end,
length): a date extends the open run iff it is exactly one calendar day after
the run's end; otherwise the run is closed (it is maximal) and a new one
opens. -/
def runsExtend (st en : String) (n : Nat) : List String → List Streak
  | [] => [⟨st, en, n⟩]
  | d :: rest =>
    if isNextDay en d then runsExtend st d (n + 1) rest
    else ⟨st, en, n⟩ :: runsExtend d d 1 rest

/-- Maximal consecutive runs of a sorted date list. -/
def runsOf : List String → List Streak
  | [] => []
  | d :: rest => runsExtend d d 1 rest

theorem streakScan_eq_runsExtend (dates : List String) :
    ∀ st en n, streakScan dates (some ⟨st, en, n⟩) = runsExtend st en n dates := by
  induction dates with
  | nil => intro st en n; rfl
  | cons d rest ih =>
    intro st en n
    show (if isNextDay en d then _ else _) = _
    rw [runsExtend]
    split
    · exact ih st d (n + 1)
    · rw [ih d d 1]

/-- C3: `calculateStreaks` keeps exactly the `done` keys, sorted ascending,
groups them into maximal runs extended exactly by the next calendar day, and
returns the runs sorted descending by length; in particular it maps the
three-entry example history to the specified two streaks and the empty history
to `[]`. -/
theorem c3_calculateStreaks_spec :
    (∀ h : List (String × String), calculateStreaks h
        = sortLenDesc (runsOf (sortAsc ((h.filter (fun p => p.2 = "done")).map (·.1))))) ∧
      calculateStreaks [("2024-01-01", "done"), ("2024-01-02", "done"), ("2024-01-04", "done")]
        = [⟨"2024-01-01", "2024-01-02", 2⟩, ⟨"2024-01-04", "2024-01-04", 1⟩] ∧
      calculateStreaks ([] : List (String × String)) = [] := by
  refine ⟨fun h => ?_, by decide, by decide⟩
  unfold calculateStreaks
  cases hs : sortAsc ((h.filter (fun p => p.2 = "done")).map (·.1)) with
  | nil => rfl
  | cons d rest =>
    show sortLenDesc (streakScan rest (some ⟨d, d, 1⟩)) = _
    rw [streakScan_eq_runsExtend]
    rfl

/-! ### C10: invariants of the streak scan -/

/-- Well-formedness of a produced streak: positive length, start not after
end (in date-key order), and, whenever the start key is a valid date, the end
key is exactly `length - 1` calendar days after it (so the streak spans
`length` calendar days inclusively). -/
def streakOk (st : Streak) : Prop :=
  1 ≤ st.length ∧ jsStrLe st.start.data st.endDate.data = true ∧
    ∀ a : Int, toDayNumber st.start = some a →
      toDayNumber st.endDate = some (a + st.length - 1)

theorem isNextDay_spec {e d : String} (h : isNextDay e d = true) :
    ∃ b, toDayNumber e = some b ∧ toDayNumber d = some (b + 1) := by
  unfold isNextDay at h
  cases he : toDayNumber e with
  | none =>
    rw [he] at h
    cases hd : toDayNumber d <;> rw [hd] at h <;> simp at h
  | some b =>
    cases hd : toDayNumber d with
    | none => rw [he, hd] at h; simp at h
    | some a =>
      rw [he, hd] at h
      simp at h
      exact ⟨b, rfl, by rw [h]⟩

theorem streakOk_single (d : String) : streakOk ⟨d, d, 1⟩ := by
  refine ⟨le_refl 1, jsStrLe_refl d.data, fun a ha => ?_⟩
  rw [ha]
  norm_num

theorem streakScan_ok (dates : List String) :
    ∀ cur : Option Streak,
      AscSorted dates →
      (∀ c, cur = some c → streakOk c ∧ ∀ d ∈ dates, jsStrLe c.endDate.data d.data = true) →
      (∀ st ∈ streakScan dates cur, streakOk st) ∧
        ((streakScan dates cur).map Streak.length).sum
          = dates.length + (match cur with | none => 0 | some c => c.length) := by
  induction dates with
  | nil =>
    intro cur _ hcur
    match cur with
    | none => exact ⟨by simp [streakScan], by simp [streakScan]⟩
    | some c =>
      refine ⟨?_, by simp [streakScan]⟩
      intro st hst
      rw [show streakScan [] (some c) = [c] from rfl] at hst
      rcases List.mem_singleton.mp hst with rfl
      exact (hcur st rfl).1
  | cons d rest ih =>
    intro cur hsorted hcur
    rcases List.pairwise_cons.mp hsorted with ⟨hd_rest, hrest⟩
    match cur with
    | none =>
      have hnew : ∀ c, some (⟨d, d, 1⟩ : Streak) = some c →
          streakOk c ∧ ∀ e ∈ rest, jsStrLe c.endDate.data e.data = true := by
        intro c hc
        cases hc
        exact ⟨streakOk_single d, hd_rest⟩
      have := ih (some ⟨d, d, 1⟩) hrest hnew
      refine ⟨this.1, ?_⟩
      rw [show streakScan (d :: rest) none = streakScan rest (some ⟨d, d, 1⟩) from rfl, this.2]
      simp
    | some c =>
      obtain ⟨hcok, hcle⟩ := hcur c rfl
      have hstep : streakScan (d :: rest) (some c)
          = if isNextDay c.endDate d
            then streakScan rest (some ⟨c.start, d, c.length + 1⟩)
            else c :: streakScan rest (some ⟨d, d, 1⟩) := rfl
      rw [hstep]
      by_cases hnext : isNextDay c.endDate d = true
      · rw [if_pos hnext]
        have hnewok : streakOk ⟨c.start, d, c.length + 1⟩ := by
          obtain ⟨hb, hcse, hcday⟩ := hcok
          refine ⟨?_, ?_, ?_⟩
          · show 1 ≤ c.length + 1
            omega
          · show jsStrLe c.start.data d.data = true
            exact jsStrLe_trans hcse (hcle d (by simp))
          · intro a ha
            obtain ⟨b, hbe, hbd⟩ := isNextDay_spec hnext
            have hsome := hcday a ha
            rw [hbe] at hsome
            have hba : b = a + c.length - 1 := Option.some.inj hsome
            show toDayNumber d = some (a + (↑(c.length + 1) : Int) - 1)
            rw [hbd, hba]
            congr 1
            push_cast
            ring
        have hnew : ∀ x, some (⟨c.start, d, c.length + 1⟩ : Streak) = some x →
            streakOk x ∧ ∀ e ∈ rest, jsStrLe x.endDate.data e.data = true := by
          intro x hx
          cases hx
          exact ⟨hnewok, hd_rest⟩
        have hih := ih (some ⟨c.start, d, c.length + 1⟩) hrest hnew
        refine ⟨hih.1, ?_⟩
        rw [hih.2]
        show rest.length + (c.length + 1) = rest.length + 1 + c.length
        omega
      · rw [if_neg hnext]
        have hnew : ∀ x, some (⟨d, d, 1⟩ : Streak) = some x →
            streakOk x ∧ ∀ e ∈ rest, jsStrLe x.endDate.data e.data = true := by
          intro x hx
          cases hx
          exact ⟨streakOk_single d, hd_rest⟩
        have hih := ih (some ⟨d, d, 1⟩) hrest hnew
        constructor
        · intro st hst
          rcases List.mem_cons.mp hst with rfl | hst
          · exact hcok
          · exact hih.1 st hst
        · simp only [List.map_cons, List.sum_cons, hih.2]
          show c.length + (rest.length + 1) = rest.length + 1 + c.length
          omega

/-- C10: every streak list returned by the habit streak analyzer partitions
the `done` dates: each returned streak has positive length with start not
after end and spans exactly `length` calendar days inclusively (whenever its
start key is a valid date key — which holds for every history keyed by real
date keys), and the lengths of all returned streaks sum to the number of
history entries whose status is `done`. -/
theorem c10_streak_partition (h : List (String × String)) :
    (∀ st ∈ calculateStreaks h,
        1 ≤ st.length ∧ jsStrLe st.start.data st.endDate.data = true ∧
          ∀ a : Int, toDayNumber st.start = some a →
            toDayNumber st.endDate = some (a + st.length - 1)) ∧
      ((calculateStreaks h).map Streak.length).sum
        = (h.filter (fun p => p.2 = "done")).length := by
  have hscan := streakScan_ok (sortAsc ((h.filter (fun p => p.2 = "done")).map (·.1)))
    none (ascSorted_sortAsc _) (by intro c hc; cases hc)
  constructor
  · intro st hst
    exact hscan.1 st (mem_sortLenDesc.mp hst)
  · show ((sortLenDesc _).map Streak.length).sum = _
    rw [sum_sortLenDesc, hscan.2, length_sortAsc, List.length_map]
    simp

/-- C10 witness: the partition property evaluated on a concrete history with a
gap (two streaks, lengths summing to the three `done` entries; the `fail`
entry is not counted). -/
theorem c10_streak_partition_witness :
    ((calculateStreaks [("2024-01-01", "done"), ("2024-01-02", "done"),
        ("2024-01-05", "done"), ("2024-01-03", "fail")]).map Streak.length).sum = 3 :=
  (c10_streak_partition _).2.trans (by decide)

/-! ### C4: the workout streak entry point -/

/-- Workout history entry `{ type, count, timestamp }`. -/
structure WEntry where
  wtype : String
  count : Int
  timestamp : String
deriving DecidableEq, Repr

/-- Scan phase of `calculateWorkoutStreaks` for the `'all'` view
(habits-scripts.js, lines 2549–2589): iterate all sorted date keys; a date
with no (or an empty) entry list closes the open streak, pushing it **only
when its length exceeds 1**; a mid-scan close at a non-consecutive workout
date pushes unconditionally; the final open streak is pushed **only when its
length exceeds 1**. -/
def workoutScanAll (history : List (String × List WEntry)) :
    List String → Option Streak → List Streak
  | [], none => []
  | [], some c => if 1 < c.length then [c] else []
  | d :: rest, cur =>
    if ((List.lookup d history).getD []).isEmpty then
      match cur with
      | some c =>
        if 1 < c.length then c :: workoutScanAll history rest none
        else workoutScanAll history rest none
      | none => workoutScanAll history rest none
    else
      match cur with
      | none => workoutScanAll history rest (some ⟨d, d, 1⟩)
      | some c =>
        if isNextDay c.endDate d then workoutScanAll history rest (some ⟨c.start, d, c.length + 1⟩)
        else c :: workoutScanAll history rest (some ⟨d, d, 1⟩)

/-- Function `calculateWorkoutStreaks` in the `'all'` view (the entry point
over the date → entry-list map with "has at least one entry" as the done
predicate): sort all history keys ascending, scan, and sort the resulting
streaks by length descending. -/
def calculateWorkoutStreaksAll (history : List (String × List WEntry)) : List Streak :=
  sortLenDesc (workoutScanAll history (sortAsc (history.map (·.1))) none)

/-- The habit streak algorithm (filter by the done predicate, sort keys, scan,
sort by length) applied to the predicate "the date has at least one entry". -/
def workoutStreaksByHabitAlgo (history : List (String × List WEntry)) : List Streak :=
  sortLenDesc (streakScan (sortAsc ((history.filter (fun p => !p.2.isEmpty)).map (·.1))) none)

/-- Length of the final open streak left by the scan, if any. -/
def finalStreakLen : List String → Option Streak → Option Nat
  | [], none => none
  | [], some c => some c.length
  | d :: rest, none => finalStreakLen rest (some ⟨d, d, 1⟩)
  | d :: rest, some c =>
    if isNextDay c.endDate d then finalStreakLen rest (some ⟨c.start, d, c.length + 1⟩)
    else finalStreakLen rest (some ⟨d, d, 1⟩)

/-- C4 counterexample: on the single-day history the habit algorithm applied
to the has-an-entry predicate returns the length-1 streak, but the workout
entry point drops it (its final push is guarded by `length > 1`), so the two
disagree — the workout scan does apply a minimum-length filter at this layer. -/
theorem c4_workout_counterexample :
    calculateWorkoutStreaksAll [("2024-01-01", [⟨"Run", 1, "t"⟩])] = [] ∧
      workoutStreaksByHabitAlgo [("2024-01-01", [⟨"Run", 1, "t"⟩])]
        = [⟨"2024-01-01", "2024-01-01", 1⟩] ∧
      calculateWorkoutStreaksAll [("2024-01-01", [⟨"Run", 1, "t"⟩])]
        ≠ workoutStreaksByHabitAlgo [("2024-01-01", [⟨"Run", 1, "t"⟩])] := by
  refine ⟨rfl, rfl, by decide⟩

theorem lookup_nonEmpty {h : List (String × List WEntry)} {d : String}
    (hne : ∀ p ∈ h, p.2 ≠ []) (hd : d ∈ h.map (·.1)) :
    ((List.lookup d h).getD []).isEmpty = false := by
  induction h with
  | nil => simp at hd
  | cons p t ih =>
    obtain ⟨k, v⟩ := p
    by_cases hk : d = k
    · subst hk
      rw [show List.lookup d ((d, v) :: t) = some v from by simp [List.lookup]]
      have : v ≠ [] := hne (d, v) (by simp)
      simpa [List.isEmpty_iff] using this
    · have hbeq : (d == k) = false := beq_eq_false_iff_ne.mpr hk
      rw [show List.lookup d ((k, v) :: t) = List.lookup d t from by simp [List.lookup, hbeq]]
      apply ih (fun q hq => hne q (by simp [hq]))
      rcases List.mem_map.mp hd with ⟨q, hq, hqd⟩
      rcases List.mem_cons.mp hq with rfl | hq
      · exact absurd hqd.symm (by simpa using hk)
      · exact List.mem_map.mpr ⟨q, hq, hqd⟩

theorem workoutScanAll_eq_streakScan (h : List (String × List WEntry)) (dates : List String) :
    ∀ cur : Option Streak,
      (∀ d ∈ dates, ((List.lookup d h).getD []).isEmpty = false) →
      (∀ c, cur = some c → 1 ≤ c.length) →
      finalStreakLen dates cur ≠ some 1 →
      workoutScanAll h dates cur = streakScan dates cur := by
  induction dates with
  | nil =>
    intro cur _ hlen hfin
    match cur with
    | none => rfl
    | some c =>
      have h1 : 1 < c.length := by
        have := hlen c rfl
        have : c.length ≠ 1 := fun hc => hfin (by rw [show finalStreakLen [] (some c) = some c.length from rfl, hc])
        omega
      show (if 1 < c.length then [c] else []) = [c]
      rw [if_pos h1]
  | cons d rest ih =>
    intro cur hmem hlen hfin
    have hdne : ((List.lookup d h).getD []).isEmpty = false := hmem d (by simp)
    have hmem' : ∀ e ∈ rest, ((List.lookup e h).getD []).isEmpty = false :=
      fun e he => hmem e (by simp [he])
    match cur with
    | none =>
      have hwstep : workoutScanAll h (d :: rest) none
          = if ((List.lookup d h).getD []).isEmpty
            then workoutScanAll h rest none
            else workoutScanAll h rest (some ⟨d, d, 1⟩) := rfl
      rw [hwstep, if_neg (by simp [hdne])]
      exact ih (some ⟨d, d, 1⟩) hmem' (by intro c hc; cases hc; exact le_refl 1) hfin
    | some c =>
      have hwstep : workoutScanAll h (d :: rest) (some c)
          = if ((List.lookup d h).getD []).isEmpty
            then (if 1 < c.length then c :: workoutScanAll h rest none
                  else workoutScanAll h rest none)
            else (if isNextDay c.endDate d
                  then workoutScanAll h rest (some ⟨c.start, d, c.length + 1⟩)
                  else c :: workoutScanAll h rest (some ⟨d, d, 1⟩)) := rfl
      rw [hwstep, if_neg (by simp [hdne])]
      have hscan : streakScan (d :: rest) (some c)
          = if isNextDay c.endDate d
            then streakScan rest (some ⟨c.start, d, c.length + 1⟩)
            else c :: streakScan rest (some ⟨d, d, 1⟩) := rfl
      rw [hscan]
      have hfin' : finalStreakLen (d :: rest) (some c)
          = if isNextDay c.endDate d
            then finalStreakLen rest (some ⟨c.start, d, c.length + 1⟩)
            else finalStreakLen rest (some ⟨d, d, 1⟩) := rfl
      by_cases hnext : isNextDay c.endDate d = true
      · rw [if_pos hnext, if_pos hnext]
        rw [hfin', if_pos hnext] at hfin
        exact ih (some ⟨c.start, d, c.length + 1⟩) hmem'
          (by intro x hx; cases hx; show 1 ≤ c.length + 1; omega) hfin
      · rw [if_neg hnext, if_neg hnext]
        rw [hfin', if_neg hnext] at hfin
        rw [ih (some ⟨d, d, 1⟩) hmem' (by intro x hx; cases hx; exact le_refl 1) hfin]

/-- C4 (amended): for every workout history map that satisfies the sparse-data
invariant (no empty entry lists) and whose chronologically final streak does
not have length 1, the workout entry point computes exactly the result of the
habit streak algorithm applied to the has-at-least-one-entry predicate.  When
the final open streak has length 1 the workout entry point omits it (the
counterexample), so the layers do differ by a minimum-length filter on the
final (and empty-day-closed) streaks. -/
theorem c4_workout_matches_habit_algo (h : List (String × List WEntry))
    (hne : ∀ p ∈ h, p.2 ≠ [])
    (hfin : finalStreakLen (sortAsc (h.map (·.1))) none ≠ some 1) :
    calculateWorkoutStreaksAll h = workoutStreaksByHabitAlgo h := by
  have hfilter : h.filter (fun p => !p.2.isEmpty) = h := by
    apply List.filter_eq_self.mpr
    intro p hp
    simpa [List.isEmpty_iff] using hne p hp
  unfold calculateWorkoutStreaksAll workoutStreaksByHabitAlgo
  rw [hfilter]
  congr 1
  apply workoutScanAll_eq_streakScan
  · intro d hd
    exact lookup_nonEmpty hne (mem_sortAsc.mp hd)
  · intro c hc
    cases hc
  · exact hfin

/-- C4 witness: the amended equivalence evaluated on a two-consecutive-day
history (final streak of length 2, so no filtering occurs and both entry
points return the same single streak). -/
theorem c4_workout_matches_habit_algo_witness :
    (∀ p ∈ [("2024-01-01", [(⟨"Run", 1, "t"⟩ : WEntry)]), ("2024-01-02", [⟨"Gym", 2, "u"⟩])],
        p.2 ≠ []) ∧
      finalStreakLen (sortAsc ([("2024-01-01", [(⟨"Run", 1, "t"⟩ : WEntry)]),
        ("2024-01-02", [⟨"Gym", 2, "u"⟩])].map (·.1))) none ≠ some 1 ∧
      calculateWorkoutStreaksAll [("2024-01-01", [(⟨"Run", 1, "t"⟩ : WEntry)]),
          ("2024-01-02", [⟨"Gym", 2, "u"⟩])]
        = workoutStreaksByHabitAlgo [("2024-01-01", [(⟨"Run", 1, "t"⟩ : WEntry)]),
          ("2024-01-02", [⟨"Gym", 2, "u"⟩])] :=
  ⟨by decide, by decide, c4_workout_matches_habit_algo _ (by decide) (by decide)⟩

/-! ### Decimal round trip for `parseInt` -/

theorem digitChar_props (d : Nat) (h : d < 10) :
    isJsWs (digitChar d) = false ∧ digitChar d ≠ '-' ∧ digitChar d ≠ '+' ∧
      digitChar d ≠ 'x' ∧ digitChar d ≠ 'X' ∧ digitChar d ≠ '_' ∧
      charDigitVal 10 (digitChar d) = some d := by
  interval_cases d <;> decide

theorem natDigitsRev_lt (fuel n : Nat) : ∀ d ∈ natDigitsRev fuel n, d < 10 := by
  induction fuel generalizing n with
  | zero => intro d hd; simp [natDigitsRev] at hd
  | succ fuel ih =>
    intro d hd
    match n with
    | 0 => simp [natDigitsRev] at hd
    | m + 1 =>
      rw [natDigitsRev] at hd
      rcases List.mem_cons.mp hd with rfl | hd
      · omega
      · exact ih _ d hd

theorem ofDigits_natDigitsRev (fuel n : Nat) (h : n ≤ fuel) :
    Nat.ofDigits 10 (natDigitsRev fuel n) = n := by
  induction fuel generalizing n with
  | zero =>
    interval_cases n
    simp [natDigitsRev]
  | succ fuel ih =>
    match n with
    | 0 => simp [natDigitsRev]
    | m + 1 =>
      rw [natDigitsRev, Nat.ofDigits_cons, ih ((m + 1) / 10) (by omega)]
      omega

theorem foldl_ofDigits (L : List Nat) : ∀ a : Nat,
    L.foldl (fun acc d => acc * 10 + d) a = a * 10 ^ L.length + Nat.ofDigits 10 L.reverse := by
  induction L with
  | nil => intro a; simp
  | cons d L ih =>
    intro a
    rw [List.foldl_cons, ih (a * 10 + d), List.reverse_cons, Nat.ofDigits_append]
    simp [pow_succ]
    ring

theorem takeDigits_digitChars (L : List Nat) (hlt : ∀ d ∈ L, d < 10) : ∀ acc,
    takeDigits 10 (L.map digitChar) acc
      = (L.foldl (fun a d => a * 10 + d) acc, L.length) := by
  induction L with
  | nil => intro acc; rfl
  | cons d L ih =>
    intro acc
    have hd := (digitChar_props d (hlt d (by simp))).2.2.2.2.2.2
    show takeDigits 10 (digitChar d :: L.map digitChar) acc = _
    simp only [takeDigits, hd]
    rw [ih (fun x hx => hlt x (by simp [hx])) (acc * 10 + d)]
    simp

theorem jsParseIntChars_digitChars (L : List Nat) (hne : L ≠ []) (hlt : ∀ d ∈ L, d < 10) :
    jsParseIntChars (L.map digitChar)
      = some ((L.foldl (fun a d => a * 10 + d) 0 : Nat) : Int) := by
  obtain ⟨d0, L', rfl⟩ : ∃ d0 L', L = d0 :: L' := by
    cases L with
    | nil => exact absurd rfl hne
    | cons a b => exact ⟨a, b, rfl⟩
  obtain ⟨hws, hminus, hplus, hx, hX, _, _⟩ := digitChar_props d0 (hlt d0 (by simp))
  have hdrop : (digitChar d0 :: L'.map digitChar).dropWhile isJsWs
      = digitChar d0 :: L'.map digitChar := by
    rw [List.dropWhile_cons, hws]
    simp
  have e1 : headIs '-' (digitChar d0 :: L'.map digitChar) = false := by
    simp [headIs, hminus]
  have e2 : headIs '+' (digitChar d0 :: L'.map digitChar) = false := by
    simp [headIs, hplus]
  have e3 : (headIs 'x' (L'.map digitChar) || headIs 'X' (L'.map digitChar)) = false := by
    cases L' with
    | nil => rfl
    | cons d1 L'' =>
      have h1 := digitChar_props d1 (hlt d1 (by simp))
      simp [headIs, h1.2.2.2.1, h1.2.2.2.2.1]
  have htake := takeDigits_digitChars (d0 :: L') hlt 0
  rw [List.map_cons] at htake
  show jsParseIntChars (digitChar d0 :: L'.map digitChar) = _
  simp only [jsParseIntChars, hdrop, e1, e2, List.tail_cons, e3, Bool.false_or, Bool.or_false,
    Bool.and_false, Bool.false_and, if_false, Bool.false_eq_true, htake]
  simp

theorem jsParseIntChars_natDecimal (n : Nat) :
    jsParseIntChars (natDecimal n) = some (n : Int) := by
  by_cases h0 : n = 0
  · subst h0
    decide
  · have hne : natDigitsRev n n ≠ [] := by
      cases n with
      | zero => exact absurd rfl h0
      | succ m => simp [natDigitsRev]
    have hlt := natDigitsRev_lt n n
    have hlt' : ∀ d ∈ (natDigitsRev n n).reverse, d < 10 := by
      intro d hd; exact hlt d (List.mem_reverse.mp hd)
    have hne' : (natDigitsRev n n).reverse ≠ [] := by
      simpa using hne
    unfold natDecimal natDecimalDigits
    rw [if_neg h0]
    rw [jsParseIntChars_digitChars _ hne' hlt', foldl_ofDigits]
    simp [ofDigits_natDigitsRev n n (le_refl n)]

theorem natDecimalDigits_lt (n : Nat) : ∀ d ∈ natDecimalDigits n, d < 10 := by
  unfold natDecimalDigits
  split
  · simp
  · intro d hd
    exact natDigitsRev_lt n n d (List.mem_reverse.mp hd)

theorem natDecimalDigits_ne_nil (n : Nat) : natDecimalDigits n ≠ [] := by
  unfold natDecimalDigits
  split
  · simp
  · rename_i h0
    cases n with
    | zero => exact absurd rfl h0
    | succ m => simp [natDigitsRev]

theorem foldl_natDecimalDigits (n : Nat) :
    (natDecimalDigits n).foldl (fun a d => a * 10 + d) 0 = n := by
  unfold natDecimalDigits
  split
  · rename_i h0
    subst h0
    rfl
  · rw [foldl_ofDigits, List.reverse_reverse, ofDigits_natDigitsRev n n (le_refl n)]
    simp

theorem jsParseIntChars_neg_digitChars (L : List Nat) (hne : L ≠ [])
    (hlt : ∀ d ∈ L, d < 10) :
    jsParseIntChars ('-' :: L.map digitChar)
      = some (-((L.foldl (fun a d => a * 10 + d) 0 : Nat) : Int)) := by
  obtain ⟨d0, L', rfl⟩ : ∃ d0 L', L = d0 :: L' := by
    cases L with
    | nil => exact absurd rfl hne
    | cons a b => exact ⟨a, b, rfl⟩
  obtain ⟨hws, hminus, hplus, hx, hX, _, _⟩ := digitChar_props d0 (hlt d0 (by simp))
  have hdrop : ('-' :: digitChar d0 :: L'.map digitChar).dropWhile isJsWs
      = '-' :: digitChar d0 :: L'.map digitChar := by
    rw [List.dropWhile_cons]
    simp [show isJsWs '-' = false from by decide]
  have e1 : headIs '-' ('-' :: digitChar d0 :: L'.map digitChar) = true := rfl
  have e0 : headIs '0' (digitChar d0 :: L'.map digitChar) = false ∨
      (headIs 'x' (L'.map digitChar) || headIs 'X' (L'.map digitChar)) = false := by
    right
    cases L' with
    | nil => rfl
    | cons d1 L'' =>
      have h1 := digitChar_props d1 (hlt d1 (by simp))
      simp [headIs, h1.2.2.2.1, h1.2.2.2.2.1]
  have hhexfalse : (headIs '0' (digitChar d0 :: L'.map digitChar)
      && (headIs 'x' (L'.map digitChar) || headIs 'X' (L'.map digitChar))) = false := by
    rcases e0 with h | h
    · rw [h]; rfl
    · rw [h]; simp
  have htake := takeDigits_digitChars (d0 :: L') hlt 0
  rw [List.map_cons] at htake
  show jsParseIntChars ('-' :: digitChar d0 :: L'.map digitChar) = _
  simp only [jsParseIntChars, hdrop, e1, List.tail_cons, Bool.true_or, if_true, htake,
    hhexfalse, if_false, Bool.false_eq_true]
  simp

/-- Round trip of the decimal rendering through the `parseInt` model: the
codec encodes integer fields with `String(value)` and decodes them with
`parseInt`, which recovers the value exactly. -/
theorem jsParseIntChars_intDecimal (i : Int) :
    jsParseIntChars (intDecimal i) = some i := by
  by_cases h : i < 0
  · rw [intDecimal, if_pos h]
    show jsParseIntChars ('-' :: (natDecimalDigits i.natAbs).map digitChar) = _
    rw [jsParseIntChars_neg_digitChars _ (natDecimalDigits_ne_nil _) (natDecimalDigits_lt _),
      foldl_natDecimalDigits]
    congr 1
    omega
  · rw [intDecimal, if_neg h]
    show jsParseIntChars ((natDecimalDigits i.natAbs).map digitChar) = _
    rw [jsParseIntChars_digitChars _ (natDecimalDigits_ne_nil _) (natDecimalDigits_lt _),
      foldl_natDecimalDigits]
    congr 1
    omega

/-! ## Tabular codec (`convertDataToCSV`, `parseCSVData`) -/

/-- Water/protein history entry `{ amount, timestamp }`. -/
structure IntakeEntry where
  amount : Int
  timestamp : String
deriving DecidableEq, Repr

/-- Per-type workout state `{ completed, order }`. -/
structure WorkoutState where
  completed : Bool
  order : Int
deriving DecidableEq, Repr

/-- One habit `{ name, color, history }` with a date → status history map. -/
structure Habit where
  name : String
  color : String
  history : List (String × String)
deriving DecidableEq, Repr

/-- The in-store snapshot `convertDataToCSV` reads: goal/intake/theme/reminder
are raw nullable strings; the history/state/count maps are the JSON-decoded
shapes of the corresponding store keys (association lists in insertion
order). -/
structure Snapshot where
  waterGoal : Option String
  waterIntake : Option String
  proteinGoal : Option String
  proteinIntake : Option String
  waterHistory : List (String × List IntakeEntry)
  proteinHistory : List (String × List IntakeEntry)
  workoutState : List (String × WorkoutState)
  workoutCount : List (String × Int)
  workoutHistory : List (String × List WEntry)
  habitsData : List Habit
  theme : Option String
  reminder : Option String
deriving DecidableEq, Repr

/-- String form of `String(n)` for a natural number. -/
def natDecimalStr (n : Nat) : String := String.mk (natDecimal n)

/-- String form of `String(i)` for an integer. -/
def intDecimalStr (i : Int) : String := String.mk (intDecimal i)

/-- A row of the flat table: twelve cells, `none` for `null`/`undefined`
(escaped to the empty string), in header-column order
`data_type, key, value, date, amount, timestamp, type, count, name, color,
completed, order`. -/
def addRow (dataType key : String) (value : Option String) : List (Option String) :=
  [some dataType, some key, value, some "", some "", some "", some "", some "", some "",
    some "", some "", some ""]

/-- Row emitted for one water/protein history entry (`data_type` is
`water_history` or `protein_history`): composite key `date_index`, then the
`date`, `amount`, `timestamp` columns. -/
def intakeHistRow (dt : String) (date : String) (idx : Nat) (e : IntakeEntry) :
    List (Option String) :=
  [some dt, some (date ++ "_" ++ natDecimalStr idx), some "", some date,
    some (intDecimalStr e.amount), some e.timestamp, some "", some "", some "", some "",
    some "", some ""]

/-- Row emitted for one workout type's state. -/
def workoutStateRow (t : String) (st : WorkoutState) : List (Option String) :=
  [some "workout_state", some t, some "", some "", some "", some "", some t, some "",
    some "", some "", some (if st.completed then "true" else "false"),
    some (intDecimalStr st.order)]

/-- Row emitted for one workout type's count. -/
def workoutCountRow (t : String) (c : Int) : List (Option String) :=
  [some "workout_count", some t, some "", some "", some "", some "", some t,
    some (intDecimalStr c), some "", some "", some "", some ""]

/-- Row emitted for one workout history entry. -/
def workoutHistRow (date : String) (idx : Nat) (e : WEntry) : List (Option String) :=
  [some "workout_history", some (date ++ "_" ++ natDecimalStr idx), some "", some date,
    some "", some e.timestamp, some e.wtype, some (intDecimalStr e.count), some "",
    some "", some "", some ""]

/-- Row emitted for one habit (key is the habit index). -/
def habitRow (i : Nat) (hb : Habit) : List (Option String) :=
  [some "habit", some (natDecimalStr i), some "", some "", some "", some "", some "",
    some "", some hb.name, some hb.color, some "", some ""]

/-- Row emitted for one habit history entry (key is `habitIndex_date`). -/
def habitHistRow (i : Nat) (date status : String) : List (Option String) :=
  [some "habit_history", some (natDecimalStr i ++ "_" ++ date), some status, some date,
    some "", some "", some "", some "", some "", some "", some "", some ""]

/-- All data rows of the export, in the source's emission order. -/
def encodeRows (ed : String) (S : Snapshot) : List (List (Option String)) :=
  [addRow "meta" "version" (some "2.0"), addRow "meta" "exportDate" (some ed),
    addRow "water" "goal" S.waterGoal, addRow "water" "intake" S.waterIntake]
  ++ (S.waterHistory.map
        (fun p => p.2.enum.map (fun ie => intakeHistRow "water_history" p.1 ie.1 ie.2))).flatten
  ++ [addRow "protein" "goal" S.proteinGoal, addRow "protein" "intake" S.proteinIntake]
  ++ (S.proteinHistory.map
        (fun p => p.2.enum.map (fun ie => intakeHistRow "protein_history" p.1 ie.1 ie.2))).flatten
  ++ S.workoutState.map (fun p => workoutStateRow p.1 p.2)
  ++ S.workoutCount.map (fun p => workoutCountRow p.1 p.2)
  ++ (S.workoutHistory.map
        (fun p => p.2.enum.map (fun ie => workoutHistRow p.1 ie.1 ie.2))).flatten
  ++ (S.habitsData.enum.map
        (fun ih => habitRow ih.1 ih.2
          :: ih.2.history.map (fun ds => habitHistRow ih.1 ds.1 ds.2))).flatten
  ++ [addRow "settings" "theme" S.theme, addRow "settings" "reminder" S.reminder]

/-- Escape one cell (`escapeCSV` applied to the cell value, `null` ↦ `''`). -/
def escapeCell : Option String → List Char
  | none => []
  | some s => escapeCSVChars s.data

/-- Render a row: escape each of its twelve cells and join them with commas. -/
def renderRow (cells : List (Option String)) : List Char :=
  joinChar ',' (cells.map escapeCell)

/-- The fixed header line. -/
def headerChars : List Char :=
  "data_type,key,value,date,amount,timestamp,type,count,name,color,completed,order".data

/-- Function `convertDataToCSV` (core-scripts.js, lines 594–746): the header
line followed by all data rows, joined with `\n`.  The export date
`new Date().toISOString()` is passed in as `ed`. -/
def convertDataToCSV (ed : String) (S : Snapshot) : String :=
  String.mk (joinChar '\n' (headerChars :: (encodeRows ed S).map renderRow))

/-- Decoded water/protein history entry (`amount` is `none` on `NaN`). -/
structure DecEntry where
  amount : Option Int
  timestamp : Option String
deriving DecidableEq, Repr

/-- Decoded workout history entry. -/
structure DecWEntry where
  wtype : Option String
  count : Option Int
  timestamp : Option String
deriving DecidableEq, Repr

/-- Decoded per-type workout state. -/
structure DecWState where
  completed : Bool
  order : Option Int
deriving DecidableEq, Repr

/-- Decoded habit; placeholders created by pre-growing the list have `none`
name/color and an empty history. -/
structure DecHabit where
  name : Option String
  color : Option String
  history : List (String × Option String)
deriving DecidableEq, Repr

/-- The structured result of `parseCSVData` (before its final re-stringify
step, which JSON-encodes the maps verbatim).  `none` stands for both `null`
and `undefined`. -/
structure DecodedData where
  version : Option String
  exportDate : Option String
  waterGoal : Option String
  waterIntake : Option String
  proteinGoal : Option String
  proteinIntake : Option String
  waterHistory : List (String × List DecEntry)
  proteinHistory : List (String × List DecEntry)
  workoutState : List (String × DecWState)
  workoutCount : List (String × Option Int)
  workoutHistory : List (String × List DecWEntry)
  habitsData : List DecHabit
  theme : Option String
  reminder : Option String
deriving DecidableEq, Repr

/-- Failures `parseCSVData` can raise: the explicit too-short `FormatError`
(`throw new Error('Invalid CSV file format')`) and the implicit `TypeError`
raised on `habit`/`habit_history` rows whose index is not a parseable
non-negative integer (reading `.history`/`.split` of `undefined`). -/
inductive JsErr where
  | format
  | typeErr
deriving DecidableEq, Repr

/-- Initial `importedData` skeleton; `now` models the decoder's own
`new Date().toISOString()`. -/
def initialData (now : String) : DecodedData :=
  { version := some "2.0", exportDate := some now,
    waterGoal := none, waterIntake := none, proteinGoal := none, proteinIntake := none,
    waterHistory := [], proteinHistory := [], workoutState := [], workoutCount := [],
    workoutHistory := [], habitsData := [], theme := none, reminder := none }

/-- Header-name → column-index map built with `forEach` overwriting, so the
last occurrence of a duplicated name wins. -/
def headerIdxAux (name : String) : List String → Nat → Option Nat
  | [], _ => none
  | h :: t, i =>
    match headerIdxAux name t (i + 1) with
    | some j => some j
    | none => if h = name then some i else none

def headerIdx (headers : List String) (name : String) : Option Nat :=
  headerIdxAux name headers 0

/-- Cell access `row[headerMap[name]]`: `none` both when the column is absent
from the header and when the row is too short. -/
def getCell (cells : List String) : Option Nat → Option String
  | none => none
  | some k => cells[k]?

/-- JavaScript object indexing coerces an `undefined` subscript to the
property name `"undefined"`. -/
def cellKey (c : Option String) : String := c.getD "undefined"

/-- Model of `parseInt` on a possibly-undefined cell
(`parseInt(undefined)` is `NaN`, i.e. `none`). -/
def jsParseIntCell : Option String → Option Int
  | none => none
  | some s => jsParseIntChars s.data

/-- Append an entry under a date key: push onto the existing list, creating
the key at the end on first use (`if (!h[d]) h[d] = []; h[d].push(e)`). -/
def pushEntry {α : Type} : List (String × List α) → String → α → List (String × List α)
  | [], d, e => [(d, [e])]
  | (k, v) :: t, d, e =>
    if k = d then (k, v ++ [e]) :: t else (k, v) :: pushEntry t d e

/-- Property assignment `m[k] = v` on an object modelled as an ordered
association list: overwrite in place or append. -/
def setAssoc {α : Type} : List (String × α) → String → α → List (String × α)
  | [], d, v => [(d, v)]
  | (k, x) :: t, d, v =>
    if k = d then (k, v) :: t else (k, x) :: setAssoc t d v

/-- Placeholder habit pushed by the pre-growing loop (`{ history: {} }`). -/
def placeholderHabit : DecHabit := ⟨none, none, []⟩

/-- The `while (data.length <= idx) data.push({history: {}})` loop. -/
def growHabits (l : List DecHabit) (target : Nat) : List DecHabit :=
  l ++ List.replicate (target - l.length) placeholderHabit

/-- Handler for `meta` rows. -/
def decodeMetaRow (g : String → Option String) (st : DecodedData) : Except JsErr DecodedData :=
  let st1 := if g "key" = some "version" then { st with version := g "value" } else st
  let st2 := if g "key" = some "exportDate" then { st1 with exportDate := g "value" } else st1
  .ok st2

/-- Handler for `water` scalar rows. -/
def decodeWaterRow (g : String → Option String) (st : DecodedData) : Except JsErr DecodedData :=
  let st1 := if g "key" = some "goal" then { st with waterGoal := g "value" } else st
  let st2 := if g "key" = some "intake" then { st1 with waterIntake := g "value" } else st1
  .ok st2

/-- Handler for `water_history` rows. -/
def decodeWaterHistRow (g : String → Option String) (st : DecodedData) :
    Except JsErr DecodedData :=
  let e : DecEntry := ⟨jsParseIntCell (g "amount"), g "timestamp"⟩
  .ok { st with waterHistory := pushEntry st.waterHistory (cellKey (g "date")) e }

/-- Handler for `protein` scalar rows. -/
def decodeProteinRow (g : String → Option String) (st : DecodedData) :
    Except JsErr DecodedData :=
  let st1 := if g "key" = some "goal" then { st with proteinGoal := g "value" } else st
  let st2 := if g "key" = some "intake" then { st1 with proteinIntake := g "value" } else st1
  .ok st2

/-- Handler for `protein_history` rows. -/
def decodeProteinHistRow (g : String → Option String) (st : DecodedData) :
    Except JsErr DecodedData :=
  let e : DecEntry := ⟨jsParseIntCell (g "amount"), g "timestamp"⟩
  .ok { st with proteinHistory := pushEntry st.proteinHistory (cellKey (g "date")) e }

/-- Handler for `workout_state` rows. -/
def decodeWorkoutStateRow (g : String → Option String) (st : DecodedData) :
    Except JsErr DecodedData :=
  let w : DecWState := ⟨decide (g "completed" = some "true"), jsParseIntCell (g "order")⟩
  .ok { st with workoutState := setAssoc st.workoutState (cellKey (g "type")) w }

/-- Handler for `workout_count` rows. -/
def decodeWorkoutCountRow (g : String → Option String) (st : DecodedData) :
    Except JsErr DecodedData :=
  let c := jsParseIntCell (g "count")
  .ok { st with workoutCount := setAssoc st.workoutCount (cellKey (g "type")) c }

/-- Handler for `workout_history` rows. -/
def decodeWorkoutHistRow (g : String → Option String) (st : DecodedData) :
    Except JsErr DecodedData :=
  let e : DecWEntry := ⟨g "type", jsParseIntCell (g "count"), g "timestamp"⟩
  .ok { st with workoutHistory := pushEntry st.workoutHistory (cellKey (g "date")) e }

/-- Handler for `habit` rows: grow the habit list so the index is addressable,
then overwrite name and color, keeping the existing history.  Reading
`data[habitIndex].history` when the index is `NaN` or negative raises a
`TypeError`. -/
def decodeHabitRow (g : String → Option String) (st : DecodedData) :
    Except JsErr DecodedData :=
  match jsParseIntCell (g "key") with
  | none => .error .typeErr
  | some i =>
    if i < 0 then .error .typeErr
    else
      let idx := i.toNat
      let grown := growHabits st.habitsData (idx + 1)
      let hb : DecHabit := ⟨g "name", g "color", (grown.getD idx placeholderHabit).history⟩
      .ok { st with habitsData := grown.set idx hb }

/-- Handler for `habit_history` rows: split the composite key at underscores,
parse the habit index from the first part and store the status under the
second part (the date).  A missing key cell (`undefined.split`) or an index
that is `NaN`/negative raises a `TypeError`. -/
def decodeHabitHistRow (g : String → Option String) (st : DecodedData) :
    Except JsErr DecodedData :=
  match g "key" with
  | none => .error .typeErr
  | some key =>
    let parts := splitChar '_' key.data
    match jsParseIntChars (parts.headD []) with
    | none => .error .typeErr
    | some i =>
      if i < 0 then .error .typeErr
      else
        let idx := i.toNat
        let grown := growHabits st.habitsData (idx + 1)
        let old := grown.getD idx placeholderHabit
        let hist := setAssoc old.history (cellKey (parts[1]?.map String.mk)) (g "value")
        .ok { st with habitsData := grown.set idx { old with history := hist } }

/-- Handler for `settings` rows. -/
def decodeSettingsRow (g : String → Option String) (st : DecodedData) :
    Except JsErr DecodedData :=
  let st1 := if g "key" = some "theme" then { st with theme := g "value" } else st
  let st2 := if g "key" = some "reminder" then { st1 with reminder := g "value" } else st1
  .ok st2

/-- Dispatch of one data row of `parseCSVData` (core-scripts.js, lines
793–919): parse the row, read the cells named by the header map, and update
the accumulated structure according to `data_type`; unknown `data_type`
values and blank rows are ignored. -/
def dispatchRow (dt : String) (g : String → Option String) (st : DecodedData) :
    Except JsErr DecodedData :=
  if dt = "meta" then decodeMetaRow g st
  else if dt = "water" then decodeWaterRow g st
  else if dt = "water_history" then decodeWaterHistRow g st
  else if dt = "protein" then decodeProteinRow g st
  else if dt = "protein_history" then decodeProteinHistRow g st
  else if dt = "workout_state" then decodeWorkoutStateRow g st
  else if dt = "workout_count" then decodeWorkoutCountRow g st
  else if dt = "workout_history" then decodeWorkoutHistRow g st
  else if dt = "habit" then decodeHabitRow g st
  else if dt = "habit_history" then decodeHabitHistRow g st
  else if dt = "settings" then decodeSettingsRow g st
  else .ok st

def decodeRow (headers : List String) (st : DecodedData) (rowStr : String) :
    Except JsErr DecodedData :=
  if jsIsBlank rowStr.data then .ok st
  else
    let cells := parseCSVRow rowStr
    let g := fun name => getCell cells (headerIdx headers name)
    match g "data_type" with
    | none => .ok st
    | some dt => dispatchRow dt g st

/-- Left-to-right processing of the data rows, stopping at the first raised
error (an uncaught exception aborts the loop). -/
def decodeRows (headers : List String) : List String → DecodedData →
    Except JsErr DecodedData
  | [], st => .ok st
  | r :: rs, st =>
    match decodeRow headers st r with
    | .ok st' => decodeRows headers rs st'
    | .error e => .error e

/-- Function `parseCSVData` (core-scripts.js, lines 753–945): split into
lines, require at least a header and one data row, build the header map from
row 0, then process every following row. -/
def parseCSVData (now : String) (csv : String) : Except JsErr DecodedData :=
  match (splitLines csv.data).map String.mk with
  | [] => .error .format
  | [_] => .error .format
  | r0 :: rest => decodeRows (parseCSVRow r0) rest (initialData now)

/-! ### C5: decode failure conditions -/

theorem decodeHabitRow_ne_format (g : String → Option String) (st : DecodedData) :
    decodeHabitRow g st ≠ .error .format := by
  intro hcon
  unfold decodeHabitRow at hcon
  dsimp only [] at hcon
  split at hcon
  · injection hcon with hinj
    exact JsErr.noConfusion hinj
  · split at hcon
    · injection hcon with hinj
      exact JsErr.noConfusion hinj
    · exact Except.noConfusion hcon

theorem decodeHabitHistRow_ne_format (g : String → Option String) (st : DecodedData) :
    decodeHabitHistRow g st ≠ .error .format := by
  intro hcon
  unfold decodeHabitHistRow at hcon
  dsimp only [] at hcon
  split at hcon
  · injection hcon with hinj
    exact JsErr.noConfusion hinj
  · split at hcon
    · injection hcon with hinj
      exact JsErr.noConfusion hinj
    · split at hcon
      · injection hcon with hinj
        exact JsErr.noConfusion hinj
      · exact Except.noConfusion hcon

theorem dispatchRow_ne_format (dt : String) (g : String → Option String) (st : DecodedData) :
    dispatchRow dt g st ≠ .error .format := by
  intro hcon
  unfold dispatchRow at hcon
  by_cases h0 : dt = "meta"
  · rw [if_pos h0] at hcon
    exact Except.noConfusion hcon
  · rw [if_neg h0] at hcon
    by_cases h1 : dt = "water"
    · rw [if_pos h1] at hcon
      exact Except.noConfusion hcon
    · rw [if_neg h1] at hcon
      by_cases h2 : dt = "water_history"
      · rw [if_pos h2] at hcon
        exact Except.noConfusion hcon
      · rw [if_neg h2] at hcon
        by_cases h3 : dt = "protein"
        · rw [if_pos h3] at hcon
          exact Except.noConfusion hcon
        · rw [if_neg h3] at hcon
          by_cases h4 : dt = "protein_history"
          · rw [if_pos h4] at hcon
            exact Except.noConfusion hcon
          · rw [if_neg h4] at hcon
            by_cases h5 : dt = "workout_state"
            · rw [if_pos h5] at hcon
              exact Except.noConfusion hcon
            · rw [if_neg h5] at hcon
              by_cases h6 : dt = "workout_count"
              · rw [if_pos h6] at hcon
                exact Except.noConfusion hcon
              · rw [if_neg h6] at hcon
                by_cases h7 : dt = "workout_history"
                · rw [if_pos h7] at hcon
                  exact Except.noConfusion hcon
                · rw [if_neg h7] at hcon
                  by_cases h8 : dt = "habit"
                  · rw [if_pos h8] at hcon
                    exact absurd hcon (decodeHabitRow_ne_format _ _)
                  · rw [if_neg h8] at hcon
                    by_cases h9 : dt = "habit_history"
                    · rw [if_pos h9] at hcon
                      exact absurd hcon (decodeHabitHistRow_ne_format _ _)
                    · rw [if_neg h9] at hcon
                      by_cases h10 : dt = "settings"
                      · rw [if_pos h10] at hcon
                        exact Except.noConfusion hcon
                      · rw [if_neg h10] at hcon
                        exact Except.noConfusion hcon

theorem decodeRow_ne_format (headers : List String) (st : DecodedData) (r : String) :
    decodeRow headers st r ≠ .error .format := by
  intro hcon
  unfold decodeRow at hcon
  dsimp only [] at hcon
  split at hcon
  · exact Except.noConfusion hcon
  · split at hcon
    · exact Except.noConfusion hcon
    · exact absurd hcon (dispatchRow_ne_format _ _ _)

theorem decodeRows_ne_format (headers : List String) :
    ∀ (rs : List String) (st : DecodedData), decodeRows headers rs st ≠ .error .format := by
  intro rs
  induction rs with
  | nil => intro st; simp [decodeRows]
  | cons r rs ih =>
    intro st
    unfold decodeRows
    cases hr : decodeRow headers st r with
    | ok st' => exact ih st'
    | error e =>
      cases e with
      | format => exact absurd hr (decodeRow_ne_format headers st r)
      | typeErr => simp

theorem parseCSVData_format_iff (now csv : String) :
    parseCSVData now csv = .error .format ↔ (splitLines csv.data).length < 2 := by
  unfold parseCSVData
  split
  · rename_i heq
    have := congrArg List.length heq
    simp at this
    simp [this]
  · rename_i r0 heq
    have := congrArg List.length heq
    simp at this
    simp [this]
  · rename_i r0 r1 hr1 heq
    have hlen2 : (splitLines csv.data).length = r1.length + 1 := by
      have h2 := congrArg List.length heq
      rwa [List.length_map, List.length_cons] at h2
    have hr1' : 1 ≤ r1.length := by
      cases r1 with
      | nil => exact absurd rfl hr1
      | cons a b => simp
    constructor
    · intro h
      exact absurd h (decodeRows_ne_format _ _ _)
    · intro h
      exfalso
      omega

/-- C5 counterexample: a two-line input whose header contains none of the
required columns decodes without any error — the decoder never checks the
header, it simply finds no recognizable `data_type` and ignores the row. -/
theorem c5_missing_columns_counterexample :
    headerIdx (parseCSVRow "a") "data_type" = none ∧
      (parseCSVData "now" "a\nb").isOk = true := by decide

/-- C5 (amended): `parseCSVData` fails with the `FormatError` exactly when the
input has fewer than two lines (header plus at least one data row).  Required
columns absent from the header are **not** detected: such rows read their
cells as `undefined` and are ignored or decoded with `undefined` fields (a
malformed `habit`/`habit_history` index can surface as a distinct
`TypeError`, never as the `FormatError`). -/
theorem c5_format_error_iff (now csv : String) :
    parseCSVData now csv = .error .format ↔ (splitLines csv.data).length < 2 :=
  parseCSVData_format_iff now csv

/-! ### C9: encode output is always decodable -/

theorem length_consHead (c : Char) (l : List (List Char)) :
    (consHead c l).length = max 1 l.length := by
  cases l <;> simp [consHead]

theorem splitLines_length_pos (s : List Char) : 1 ≤ (splitLines s).length := by
  induction s using splitLines.induct with
  | case1 => simp [splitLines]
  | case2 => simp [splitLines]
  | case3 c h => rw [splitLines, if_neg h]; simp
  | case4 c c2 rest h ih => rw [splitLines, if_pos h]; simp
  | case5 c2 rest h ih => rw [splitLines, if_neg h, if_pos rfl]; simp
  | case6 c c2 rest h1 h2 ih =>
    rw [splitLines, if_neg h1, if_neg h2, length_consHead]
    omega

theorem length_splitLines (s : List Char) :
    (splitLines s).length = s.count '\n' + 1 := by
  induction s using splitLines.induct with
  | case1 => simp [splitLines]
  | case2 => rw [splitLines]; simp [List.count_cons]
  | case3 c h => rw [splitLines, if_neg h]; simp [List.count_cons, h]
  | case4 c c2 rest h ih =>
    obtain ⟨rfl, rfl⟩ := h
    rw [splitLines, if_pos ⟨rfl, rfl⟩]
    simp [List.count_cons, ih]
  | case5 c2 rest h ih =>
    rw [splitLines, if_neg h, if_pos rfl]
    simp [List.count_cons, ih]
  | case6 c c2 rest h1 h2 ih =>
    rw [splitLines, if_neg h1, if_neg h2, length_consHead, ih]
    simp only [List.count_cons]
    simp [h2]

theorem splitLines_newline_cons (rest : List Char) :
    splitLines ('\n' :: rest) = [] :: splitLines rest := by
  cases rest with
  | nil => simp [splitLines]
  | cons r rs =>
    rw [splitLines, if_neg (by simp), if_pos rfl]

theorem splitLines_append_newline : ∀ (p : List Char), '\n' ∉ p → p.getLast? ≠ some '\r' →
    ∀ rest, splitLines (p ++ '\n' :: rest) = p :: splitLines rest := by
  intro p
  induction p with
  | nil =>
    intro _ _ rest
    rw [List.nil_append, splitLines_newline_cons]
  | cons c p' ih =>
    intro hn hr rest
    have hc : c ≠ '\n' := fun h => hn (h ▸ List.mem_cons_self c p')
    cases p' with
    | nil =>
      have hcr : c ≠ '\r' := by
        intro h
        exact hr (by rw [h]; rfl)
      rw [show [c] ++ '\n' :: rest = c :: '\n' :: rest from rfl, splitLines,
        if_neg (by simp [hcr]), if_neg hc, splitLines_newline_cons]
      rfl
    | cons d p'' =>
      have hn' : '\n' ∉ (d :: p'') := fun h => hn (List.mem_cons_of_mem _ h)
      have hd : d ≠ '\n' := fun h => hn' (h ▸ List.mem_cons_self d p'')
      have hlast : (d :: p'').getLast? ≠ some '\r' := by
        intro h
        apply hr
        rw [show (c :: d :: p'').getLast? = (d :: p'').getLast? from List.getLast?_cons_cons]
        exact h
      rw [show (c :: d :: p'') ++ '\n' :: rest = c :: d :: (p'' ++ '\n' :: rest) from rfl,
        splitLines, if_neg (by simp [hd]), if_neg hc,
        show d :: (p'' ++ '\n' :: rest) = (d :: p'') ++ '\n' :: rest from rfl,
        ih hn' hlast rest]
      rfl

theorem count_joinChar_ge (p : List Char) (ps : List (List Char)) :
    ps.length ≤ (joinChar '\n' (p :: ps)).count '\n' := by
  induction ps generalizing p with
  | nil => simp
  | cons q ps ih =>
    rw [show joinChar '\n' (p :: q :: ps) = p ++ '\n' :: joinChar '\n' (q :: ps) from rfl]
    rw [List.count_append, List.count_cons]
    have := ih q
    simp
    omega

theorem length_encodeRows (ed : String) (S : Snapshot) :
    8 ≤ (encodeRows ed S).length := by
  rw [encodeRows]
  simp only [List.length_append, List.length_cons, List.length_nil]
  omega

/-- C9: for every snapshot the encoder emits the fixed 12-column header line
plus at least eight data rows (the two meta rows, water goal and intake,
protein goal and intake, and the two settings rows are unconditional), so the
encoded text always has at least nine lines, begins with the header, and
`parseCSVData` applied to it can never fail with the too-short `FormatError`
(and the decoder has no missing-header-columns failure at all). -/
theorem c9_encode_decodable (ed now : String) (S : Snapshot) :
    8 ≤ (encodeRows ed S).length ∧
      (splitLines (convertDataToCSV ed S).data).head? = some headerChars ∧
      2 ≤ (splitLines (convertDataToCSV ed S).data).length ∧
      parseCSVData now (convertDataToCSV ed S) ≠ .error .format := by
  have hrows := length_encodeRows ed S
  have hdata : (convertDataToCSV ed S).data
      = joinChar '\n' (headerChars :: (encodeRows ed S).map renderRow) := rfl
  have hlines : 2 ≤ (splitLines (convertDataToCSV ed S).data).length := by
    rw [hdata]
    rw [length_splitLines]
    have hcnt := count_joinChar_ge headerChars ((encodeRows ed S).map renderRow)
    rw [List.length_map] at hcnt
    omega
  refine ⟨hrows, ?_, hlines, ?_⟩
  · rcases hE : (encodeRows ed S).map renderRow with _ | ⟨r1, rest⟩
    · exfalso
      have hlen0 := congrArg List.length hE
      rw [List.length_map, List.length_nil] at hlen0
      omega
    · rw [hdata, hE]
      rw [show joinChar '\n' (headerChars :: r1 :: rest)
          = headerChars ++ '\n' :: joinChar '\n' (r1 :: rest) from rfl]
      rw [splitLines_append_newline headerChars (by decide) (by decide)]
      rfl
  · intro hcon
    rw [parseCSVData_format_iff] at hcon
    omega

/-! ### C1: the encode/decode round trip -/

/-- A string value safe to occupy one CSV cell for the purposes of the round
trip: no embedded newline or carriage return (the decoder splits lines before
parsing quotes, so escaping does not protect them) and not a non-empty run of
double quotes (on which the tokenizer's greedy pairing loses the value). -/
def fieldOk (s : String) : Prop :=
  '\n' ∉ s.data ∧ '\r' ∉ s.data ∧ isAllQuotes s.data = false

instance (s : String) : Decidable (fieldOk s) := by
  unfold fieldOk; infer_instance

/-- `fieldOk` lifted to a nullable cell (`none` renders as the empty cell). -/
def cellOk : Option String → Prop
  | none => True
  | some s => fieldOk s

instance (c : Option String) : Decidable (cellOk c) := by
  cases c <;> unfold cellOk <;> infer_instance

theorem digitChar_extra (d : Nat) (h : d < 10) :
    digitChar d ≠ '\n' ∧ digitChar d ≠ '\r' ∧ digitChar d ≠ '"' := by
  interval_cases d <;> decide

theorem natDecimal_chars {c : Char} {n : Nat} (h : c ∈ natDecimal n) :
    c ≠ '\n' ∧ c ≠ '\r' ∧ c ≠ '"' ∧ c ≠ '_' := by
  rcases List.mem_map.mp h with ⟨d, hd, rfl⟩
  have hlt := natDecimalDigits_lt n d hd
  obtain ⟨h1, h2, h3⟩ := digitChar_extra d hlt
  exact ⟨h1, h2, h3, (digitChar_props d hlt).2.2.2.2.2.1⟩

theorem natDecimal_ne_nil (n : Nat) : natDecimal n ≠ [] := by
  unfold natDecimal
  simp [natDecimalDigits_ne_nil n]

/-- A list containing a non-quote character is not an all-quotes run. -/
theorem isAllQuotes_false_of_mem {s : List Char} {c : Char} (hm : c ∈ s) (hc : c ≠ '"') :
    isAllQuotes s = false := by
  have hall : s.all (fun x => x = '"') = false := by
    cases hall : s.all (fun x => x = '"') with
    | false => rfl
    | true => exact absurd (by simpa using List.all_eq_true.mp hall c hm) hc
  simp [isAllQuotes, hall]

theorem fieldOk_natDecimalStr (n : Nat) : fieldOk (natDecimalStr n) := by
  obtain ⟨c, hc⟩ := List.exists_mem_of_ne_nil _ (natDecimal_ne_nil n)
  refine ⟨fun hm => (natDecimal_chars hm).1 rfl, fun hm => (natDecimal_chars hm).2.1 rfl, ?_⟩
  exact isAllQuotes_false_of_mem hc (natDecimal_chars hc).2.2.1

theorem intDecimal_chars {c : Char} {i : Int} (h : c ∈ intDecimal i) :
    c ≠ '\n' ∧ c ≠ '\r' ∧ c ≠ '"' := by
  unfold intDecimal at h
  split at h
  · rcases List.mem_cons.mp h with rfl | h
    · exact ⟨by decide, by decide, by decide⟩
    · exact ⟨(natDecimal_chars h).1, (natDecimal_chars h).2.1, (natDecimal_chars h).2.2.1⟩
  · exact ⟨(natDecimal_chars h).1, (natDecimal_chars h).2.1, (natDecimal_chars h).2.2.1⟩

theorem intDecimal_ne_nil (i : Int) : intDecimal i ≠ [] := by
  unfold intDecimal
  split
  · simp
  · exact natDecimal_ne_nil _

theorem fieldOk_intDecimalStr (i : Int) : fieldOk (intDecimalStr i) := by
  obtain ⟨c, hc⟩ := List.exists_mem_of_ne_nil _ (intDecimal_ne_nil i)
  refine ⟨fun hm => (intDecimal_chars hm).1 rfl, fun hm => (intDecimal_chars hm).2.1 rfl, ?_⟩
  exact isAllQuotes_false_of_mem hc (intDecimal_chars hc).2.2

/-- Joining two `fieldOk` strings with an underscore (the composite-key format)
yields a `fieldOk` string. -/
theorem fieldOk_underscore (a b : String) (ha : fieldOk a) (hb : fieldOk b) :
    fieldOk (a ++ "_" ++ b) := by
  obtain ⟨ha1, ha2, _⟩ := ha
  obtain ⟨hb1, hb2, _⟩ := hb
  have hdata : (a ++ "_" ++ b).data = a.data ++ '_' :: b.data := by
    simp [String.data_append]
  refine ⟨?_, ?_, ?_⟩
  · rw [hdata]
    simp only [List.mem_append, List.mem_cons]
    rintro (h | h | h)
    · exact ha1 h
    · exact absurd h (by decide)
    · exact hb1 h
  · rw [hdata]
    simp only [List.mem_append, List.mem_cons]
    rintro (h | h | h)
    · exact ha2 h
    · exact absurd h (by decide)
    · exact hb2 h
  · rw [hdata]
    exact @isAllQuotes_false_of_mem _ '_' (by simp) (by decide)

/-! Decoded shapes the round trip must reproduce: every source value appears
wrapped in `some` (the decoder reads existing cells). -/

def liftIntakeEntry (e : IntakeEntry) : DecEntry := ⟨some e.amount, some e.timestamp⟩

def liftIntakeHist (h : List (String × List IntakeEntry)) : List (String × List DecEntry) :=
  h.map (fun p => (p.1, p.2.map liftIntakeEntry))

def liftWEntry (e : WEntry) : DecWEntry := ⟨some e.wtype, some e.count, some e.timestamp⟩

def liftWorkoutHist (h : List (String × List WEntry)) : List (String × List DecWEntry) :=
  h.map (fun p => (p.1, p.2.map liftWEntry))

def liftStatusHist (h : List (String × String)) : List (String × Option String) :=
  h.map (fun p => (p.1, some p.2))

def liftHabit (hb : Habit) : DecHabit := ⟨some hb.name, some hb.color, liftStatusHist hb.history⟩

/-- The per-map invariants of a water/protein history object: object keys are
distinct, no date key maps to an empty entry list, and every stored string is
cell-safe. -/
def intakeHistOk (h : List (String × List IntakeEntry)) : Prop :=
  (h.map Prod.fst).Nodup ∧
    ∀ p ∈ h, fieldOk p.1 ∧ p.2 ≠ [] ∧ ∀ e ∈ p.2, fieldOk e.timestamp

instance (h : List (String × List IntakeEntry)) : Decidable (intakeHistOk h) := by
  unfold intakeHistOk; infer_instance

def workoutHistOk (h : List (String × List WEntry)) : Prop :=
  (h.map Prod.fst).Nodup ∧
    ∀ p ∈ h, fieldOk p.1 ∧ p.2 ≠ [] ∧ ∀ e ∈ p.2, fieldOk e.timestamp ∧ fieldOk e.wtype

instance (h : List (String × List WEntry)) : Decidable (workoutHistOk h) := by
  unfold workoutHistOk; infer_instance

/-- Invariants of one habit: cell-safe name/color, distinct history date keys,
cell-safe dates without underscores (the decoder splits the composite
`index_date` key at every underscore) and cell-safe statuses. -/
def habitOk (hb : Habit) : Prop :=
  fieldOk hb.name ∧ fieldOk hb.color ∧ (hb.history.map Prod.fst).Nodup ∧
    ∀ ds ∈ hb.history, fieldOk ds.1 ∧ '_' ∉ ds.1.data ∧ fieldOk ds.2

instance (hb : Habit) : Decidable (habitOk hb) := by
  unfold habitOk; infer_instance

/-- The hypotheses of the amended round trip: every string stored anywhere in
the snapshot (and the export date) is cell-safe, object keys are distinct,
no history date maps to an empty entry list, and habit history dates contain
no underscore. -/
def SnapshotOk (ed : String) (S : Snapshot) : Prop :=
  fieldOk ed ∧ cellOk S.waterGoal ∧ cellOk S.waterIntake ∧ cellOk S.proteinGoal ∧
    cellOk S.proteinIntake ∧ intakeHistOk S.waterHistory ∧ intakeHistOk S.proteinHistory ∧
    (∀ p ∈ S.workoutState, fieldOk p.1) ∧ (∀ p ∈ S.workoutCount, fieldOk p.1) ∧
    workoutHistOk S.workoutHistory ∧ (∀ hb ∈ S.habitsData, habitOk hb) ∧
    cellOk S.theme ∧ cellOk S.reminder

instance (ed : String) (S : Snapshot) : Decidable (SnapshotOk ed S) := by
  unfold SnapshotOk; infer_instance

/-! #### Recovering the emitted lines and cells -/

theorem mem_dblQuotes {c : Char} {s : List Char} (h : c ∈ dblQuotes s) : c ∈ s := by
  induction s with
  | nil => simp [dblQuotes] at h
  | cons a s ih =>
    by_cases ha : a = '"'
    · subst ha
      rw [show dblQuotes ('"' :: s) = '"' :: '"' :: dblQuotes s from rfl] at h
      simp only [List.mem_cons] at h ⊢
      tauto
    · rw [dblQuotes_other s ha] at h
      simp only [List.mem_cons] at h ⊢
      tauto

theorem mem_escapeCSVChars {c : Char} {s : List Char} (h : c ∈ escapeCSVChars s) :
    c = '"' ∨ c ∈ s := by
  unfold escapeCSVChars at h
  split at h
  · rcases List.mem_cons.mp h with rfl | h2
    · exact Or.inl rfl
    · rcases List.mem_append.mp h2 with h3 | h3
      · exact Or.inr (mem_dblQuotes h3)
      · exact Or.inl (by simpa using h3)
  · exact Or.inr h

theorem mem_joinChar {c sep : Char} {ps : List (List Char)} (h : c ∈ joinChar sep ps) :
    c = sep ∨ ∃ p ∈ ps, c ∈ p := by
  induction ps with
  | nil => simp [joinChar] at h
  | cons p ps ih =>
    cases ps with
    | nil => exact Or.inr ⟨p, by simp, by simpa [joinChar] using h⟩
    | cons q ps2 =>
      rw [show joinChar sep (p :: q :: ps2) = p ++ sep :: joinChar sep (q :: ps2) from rfl] at h
      simp only [List.mem_append, List.mem_cons] at h
      rcases h with h | rfl | h
      · exact Or.inr ⟨p, by simp, h⟩
      · exact Or.inl rfl
      · rcases ih h with rfl | ⟨r, hr, hcr⟩
        · exact Or.inl rfl
        · exact Or.inr ⟨r, List.mem_cons_of_mem _ hr, hcr⟩

/-- No character of a rendered row of cell-safe cells is a newline or a
carriage return. -/
theorem mem_renderRow {c : Char} {cells : List (Option String)} (h : c ∈ renderRow cells)
    (hok : ∀ x ∈ cells, cellOk x) : c ≠ '\n' ∧ c ≠ '\r' := by
  rcases mem_joinChar h with rfl | ⟨p, hp, hcp⟩
  · exact ⟨by decide, by decide⟩
  · rcases List.mem_map.mp hp with ⟨x, hx, rfl⟩
    cases x with
    | none => simp [escapeCell] at hcp
    | some s =>
      rcases mem_escapeCSVChars hcp with rfl | hcs
      · exact ⟨by decide, by decide⟩
      · obtain ⟨h1, h2, _⟩ := hok (some s) hx
        exact ⟨fun hc => h1 (hc ▸ hcs), fun hc => h2 (hc ▸ hcs)⟩

theorem splitLines_no_newline (p : List Char) (h : '\n' ∉ p) : splitLines p = [p] := by
  induction p with
  | nil => rfl
  | cons c p ih =>
    have hc : c ≠ '\n' := fun hcc => h (hcc ▸ List.mem_cons_self c p)
    have hp : '\n' ∉ p := fun hm => h (List.mem_cons_of_mem _ hm)
    cases p with
    | nil => rw [splitLines, if_neg hc]
    | cons c2 p2 =>
      have hc2 : c2 ≠ '\n' := fun hcc => hp (hcc ▸ List.mem_cons_self c2 p2)
      rw [splitLines, if_neg (by simp [hc2]), if_neg hc, ih hp, consHead]

/-- Splitting a newline-join of newline-free pieces (none ending in a carriage
return) recovers the pieces. -/
theorem splitLines_joinChar (ps : List (List Char)) (hne : ps ≠ [])
    (hok : ∀ p ∈ ps, '\n' ∉ p ∧ p.getLast? ≠ some '\r') :
    splitLines (joinChar '\n' ps) = ps := by
  induction ps with
  | nil => exact absurd rfl hne
  | cons p ps ih =>
    cases ps with
    | nil => exact splitLines_no_newline p (hok p (by simp)).1
    | cons q ps2 =>
      rw [show joinChar '\n' (p :: q :: ps2) = p ++ '\n' :: joinChar '\n' (q :: ps2) from rfl,
        splitLines_append_newline p (hok p (by simp)).1 (hok p (by simp)).2,
        ih (by simp) (fun r hr => hok r (List.mem_cons_of_mem _ hr))]

theorem escapeCell_eq (x : Option String) :
    escapeCell x = escapeCSVChars (x.getD "").data := by
  cases x <;> rfl

/-- Parsing the rendered form of a non-empty list of cell-safe cells recovers
the cells, with `none` read back as the empty string. -/
theorem parseRenderRow (cells : List (Option String)) (hne : cells ≠ [])
    (hok : ∀ x ∈ cells, cellOk x) :
    parseCSVRow (String.mk (renderRow cells)) = cells.map (fun c => c.getD "") := by
  obtain ⟨c0, cs, rfl⟩ : ∃ c0 cs, cells = c0 :: cs := by
    cases cells with
    | nil => exact absurd rfl hne
    | cons a b => exact ⟨a, b, rfl⟩
  have hok' : ∀ g ∈ (Option.getD c0 "").data :: cs.map (fun c => (Option.getD c "").data),
      isAllQuotes g = false := by
    intro g hg
    rcases List.mem_cons.mp hg with rfl | hg
    · cases c0 with
      | none => decide
      | some s => exact (hok (some s) (by simp)).2.2
    · rcases List.mem_map.mp hg with ⟨x, hx, rfl⟩
      cases x with
      | none => decide
      | some s => exact (hok (some s) (List.mem_cons_of_mem _ hx)).2.2
  have hj := parseRowAux_join ((Option.getD c0 "").data)
    (cs.map (fun c => (Option.getD c "").data)) hok'
  have hmap : (c0 :: cs).map escapeCell
      = ((Option.getD c0 "").data :: cs.map (fun c => (Option.getD c "").data)).map
          escapeCSVChars := by
    simp only [List.map_cons, List.map_map]
    refine congrArg₂ _ (escapeCell_eq c0) ?_
    exact List.map_congr_left (fun x _ => escapeCell_eq x)
  show (parseRowAux (String.mk (renderRow (c0 :: cs))).data false []).map String.mk = _
  rw [show (String.mk (renderRow (c0 :: cs))).data = renderRow (c0 :: cs) from rfl]
  unfold renderRow
  rw [hmap, hj]
  simp only [List.map_cons, List.map_map]
  refine congrArg₂ _ rfl ?_
  exact List.map_congr_left (fun x _ => rfl)

/-- The parsed header row of every export. -/
def stdHeaderList : List String :=
  ["data_type", "key", "value", "date", "amount", "timestamp", "type", "count", "name",
    "color", "completed", "order"]

theorem parse_headerChars : parseCSVRow (String.mk headerChars) = stdHeaderList := by decide

theorem headerIdx_data_type : headerIdx stdHeaderList "data_type" = some 0 := by decide

theorem headerIdx_key : headerIdx stdHeaderList "key" = some 1 := by decide

theorem headerIdx_value : headerIdx stdHeaderList "value" = some 2 := by decide

theorem headerIdx_date : headerIdx stdHeaderList "date" = some 3 := by decide

theorem headerIdx_amount : headerIdx stdHeaderList "amount" = some 4 := by decide

theorem headerIdx_timestamp : headerIdx stdHeaderList "timestamp" = some 5 := by decide

theorem headerIdx_type : headerIdx stdHeaderList "type" = some 6 := by decide

theorem headerIdx_count : headerIdx stdHeaderList "count" = some 7 := by decide

theorem headerIdx_name : headerIdx stdHeaderList "name" = some 8 := by decide

theorem headerIdx_color : headerIdx stdHeaderList "color" = some 9 := by decide

theorem headerIdx_completed : headerIdx stdHeaderList "completed" = some 10 := by decide

theorem headerIdx_order : headerIdx stdHeaderList "order" = some 11 := by decide

/-- One decoding step on a rendered row reduces to the dispatch on the
recovered cells. -/
theorem decodeRow_render (st : DecodedData) (cells : List (Option String)) (hne : cells ≠ [])
    (hok : ∀ x ∈ cells, cellOk x) (hblank : jsIsBlank (renderRow cells) = false) :
    decodeRow stdHeaderList st (String.mk (renderRow cells))
      = (match getCell (cells.map (fun c => c.getD "")) (headerIdx stdHeaderList "data_type") with
         | none => .ok st
         | some dt =>
            dispatchRow dt
              (fun name => getCell (cells.map (fun c => c.getD "")) (headerIdx stdHeaderList name))
              st) := by
  have hstep : decodeRow stdHeaderList st (String.mk (renderRow cells))
      = if jsIsBlank (renderRow cells) then .ok st
        else
          (match getCell (parseCSVRow (String.mk (renderRow cells)))
              (headerIdx stdHeaderList "data_type") with
           | none => .ok st
           | some dt =>
              dispatchRow dt
                (fun name => getCell (parseCSVRow (String.mk (renderRow cells)))
                  (headerIdx stdHeaderList name))
                st) := rfl
  rw [hstep, hblank, if_neg (by simp), parseRenderRow cells hne hok]

theorem renderRow_cons (s : String) (c1 : Option String) (cs : List (Option String)) :
    renderRow (some s :: c1 :: cs)
      = escapeCSVChars s.data ++ ',' :: joinChar ',' ((c1 :: cs).map escapeCell) := rfl

theorem jsIsBlank_append (a b : List Char) :
    jsIsBlank (a ++ b) = (jsIsBlank a && jsIsBlank b) := by
  simp [jsIsBlank, List.all_append]

/-- A rendered row whose first cell is a non-blank literal is not blank. -/
theorem jsIsBlank_renderRow_lit (s : String) (hs : jsIsBlank (escapeCSVChars s.data) = false)
    (c1 : Option String) (cs : List (Option String)) :
    jsIsBlank (renderRow (some s :: c1 :: cs)) = false := by
  rw [renderRow_cons, jsIsBlank_append, hs, Bool.false_and]

/-! #### Dispatch of each literal `data_type` -/

theorem dispatchMeta (g : String → Option String) (st : DecodedData) :
    dispatchRow "meta" g st = decodeMetaRow g st := by
  unfold dispatchRow
  rw [if_pos rfl]

theorem dispatchWater (g : String → Option String) (st : DecodedData) :
    dispatchRow "water" g st = decodeWaterRow g st := by
  unfold dispatchRow
  rw [if_neg (by decide), if_pos rfl]

theorem dispatchWaterHistory (g : String → Option String) (st : DecodedData) :
    dispatchRow "water_history" g st = decodeWaterHistRow g st := by
  unfold dispatchRow
  rw [if_neg (by decide), if_neg (by decide), if_pos rfl]

theorem dispatchProtein (g : String → Option String) (st : DecodedData) :
    dispatchRow "protein" g st = decodeProteinRow g st := by
  unfold dispatchRow
  rw [if_neg (by decide), if_neg (by decide), if_neg (by decide), if_pos rfl]

theorem dispatchProteinHistory (g : String → Option String) (st : DecodedData) :
    dispatchRow "protein_history" g st = decodeProteinHistRow g st := by
  unfold dispatchRow
  rw [if_neg (by decide), if_neg (by decide), if_neg (by decide), if_neg (by decide), if_pos rfl]

theorem dispatchWorkoutState (g : String → Option String) (st : DecodedData) :
    dispatchRow "workout_state" g st = decodeWorkoutStateRow g st := by
  unfold dispatchRow
  rw [if_neg (by decide), if_neg (by decide), if_neg (by decide), if_neg (by decide), if_neg (by decide), if_pos rfl]

theorem dispatchWorkoutCount (g : String → Option String) (st : DecodedData) :
    dispatchRow "workout_count" g st = decodeWorkoutCountRow g st := by
  unfold dispatchRow
  rw [if_neg (by decide), if_neg (by decide), if_neg (by decide), if_neg (by decide), if_neg (by decide), if_neg (by decide), if_pos rfl]

theorem dispatchWorkoutHistory (g : String → Option String) (st : DecodedData) :
    dispatchRow "workout_history" g st = decodeWorkoutHistRow g st := by
  unfold dispatchRow
  rw [if_neg (by decide), if_neg (by decide), if_neg (by decide), if_neg (by decide), if_neg (by decide), if_neg (by decide), if_neg (by decide), if_pos rfl]

theorem dispatchHabit (g : String → Option String) (st : DecodedData) :
    dispatchRow "habit" g st = decodeHabitRow g st := by
  unfold dispatchRow
  rw [if_neg (by decide), if_neg (by decide), if_neg (by decide), if_neg (by decide), if_neg (by decide), if_neg (by decide), if_neg (by decide), if_neg (by decide), if_pos rfl]

theorem dispatchHabitHistory (g : String → Option String) (st : DecodedData) :
    dispatchRow "habit_history" g st = decodeHabitHistRow g st := by
  unfold dispatchRow
  rw [if_neg (by decide), if_neg (by decide), if_neg (by decide), if_neg (by decide), if_neg (by decide), if_neg (by decide), if_neg (by decide), if_neg (by decide), if_neg (by decide), if_pos rfl]

theorem dispatchSettings (g : String → Option String) (st : DecodedData) :
    dispatchRow "settings" g st = decodeSettingsRow g st := by
  unfold dispatchRow
  rw [if_neg (by decide), if_neg (by decide), if_neg (by decide), if_neg (by decide), if_neg (by decide), if_neg (by decide), if_neg (by decide), if_neg (by decide), if_neg (by decide), if_neg (by decide), if_pos rfl]

theorem jsParseIntCell_int (i : Int) : jsParseIntCell (some (intDecimalStr i)) = some i := by
  show jsParseIntChars (intDecimalStr i).data = some i
  rw [show (intDecimalStr i).data = intDecimal i from rfl, jsParseIntChars_intDecimal]

theorem jsParseIntCell_nat (n : Nat) :
    jsParseIntCell (some (natDecimalStr n)) = some (n : Int) := by
  show jsParseIntChars (natDecimalStr n).data = some (n : Int)
  rw [show (natDecimalStr n).data = natDecimal n from rfl, jsParseIntChars_natDecimal]

/-! #### Decoding one rendered `water_history` row -/

theorem decodeRow_waterHist (st : DecodedData) (d : String) (i : Nat) (e : IntakeEntry)
    (hd : fieldOk d) (hts : fieldOk e.timestamp) :
    decodeRow stdHeaderList st (String.mk (renderRow (intakeHistRow "water_history" d i e)))
      = .ok { st with waterHistory := pushEntry st.waterHistory d (liftIntakeEntry e) } := by
  have hok : ∀ x ∈ intakeHistRow "water_history" d i e, cellOk x := by
    intro x hx
    unfold intakeHistRow at hx
    simp only [List.mem_cons, List.not_mem_nil, or_false] at hx
    rcases hx with rfl | rfl | rfl | rfl | rfl | rfl | rfl | rfl | rfl | rfl | rfl | rfl
    · decide
    · exact fieldOk_underscore d (natDecimalStr i) hd (fieldOk_natDecimalStr i)
    · decide
    · exact hd
    · exact fieldOk_intDecimalStr e.amount
    · exact hts
    all_goals decide
  have hblank : jsIsBlank (renderRow (intakeHistRow "water_history" d i e)) = false := by
    unfold intakeHistRow
    exact jsIsBlank_renderRow_lit "water_history" (by decide) _ _
  rw [decodeRow_render st (intakeHistRow "water_history" d i e)
    (by unfold intakeHistRow; simp) hok hblank]
  unfold intakeHistRow
  simp only [List.map_cons, List.map_nil, Option.getD_some, headerIdx_data_type, getCell,
    List.getElem?_cons_zero]
  rw [dispatchWaterHistory]
  unfold decodeWaterHistRow
  simp only [headerIdx_date, headerIdx_amount, headerIdx_timestamp, getCell,
    List.getElem?_cons_zero, List.getElem?_cons_succ, cellKey, Option.getD_some,
    jsParseIntCell_int]
  rfl

/-! #### Association-list and habit-array update lemmas -/

theorem pushEntry_fresh {α : Type} (h : List (String × List α)) (d : String) (e : α)
    (hd : d ∉ h.map Prod.fst) : pushEntry h d e = h ++ [(d, [e])] := by
  induction h with
  | nil => rfl
  | cons p t ih =>
    obtain ⟨k, v⟩ := p
    simp only [List.map_cons, List.mem_cons] at hd
    push_neg at hd
    rw [List.cons_append, pushEntry, if_neg (fun hc => hd.1 hc.symm), ih hd.2]

theorem pushEntry_last {α : Type} (prior : List (String × List α)) (d : String)
    (done : List α) (e : α) (hfresh : d ∉ prior.map Prod.fst) :
    pushEntry (prior ++ [(d, done)]) d e = prior ++ [(d, done ++ [e])] := by
  induction prior with
  | nil => simp [pushEntry]
  | cons p t ih =>
    obtain ⟨k, v⟩ := p
    simp only [List.map_cons, List.mem_cons] at hfresh
    push_neg at hfresh
    rw [List.cons_append, pushEntry, if_neg (fun hc => hfresh.1 hc.symm), ih hfresh.2,
      List.cons_append]

theorem setAssoc_fresh {α : Type} (h : List (String × α)) (d : String) (v : α)
    (hd : d ∉ h.map Prod.fst) : setAssoc h d v = h ++ [(d, v)] := by
  induction h with
  | nil => rfl
  | cons p t ih =>
    obtain ⟨k, x⟩ := p
    simp only [List.map_cons, List.mem_cons] at hd
    push_neg at hd
    rw [List.cons_append, setAssoc, if_neg (fun hc => hd.1 hc.symm), ih hd.2]

theorem getD_append_last {α : Type} (l : List α) (p dflt : α) :
    (l ++ [p]).getD l.length dflt = p := by
  induction l with
  | nil => rfl
  | cons a l ih => simp [ih]

theorem set_append_last {α : Type} (l : List α) (p v : α) :
    (l ++ [p]).set l.length v = l ++ [v] := by
  induction l with
  | nil => rfl
  | cons a l ih => simp [List.set, ih]

theorem growHabits_one {l : List DecHabit} {i : Nat} (h : l.length = i) :
    growHabits l (i + 1) = l ++ [placeholderHabit] := by
  unfold growHabits
  have h1 : i + 1 - l.length = 1 := by omega
  rw [h1, List.replicate_one]

theorem growHabits_le {l : List DecHabit} {t : Nat} (h : t ≤ l.length) :
    growHabits l t = l := by
  unfold growHabits
  rw [Nat.sub_eq_zero_of_le h]
  simp

theorem data_underscore (a b : String) : (a ++ "_" ++ b).data = a.data ++ '_' :: b.data := by
  simp [String.data_append]

theorem splitChar_not_mem {sep : Char} : ∀ {s : List Char}, sep ∉ s → splitChar sep s = [s]
  | [], _ => rfl
  | c :: rest, h => by
    have hc : c ≠ sep := fun hcc => h (hcc ▸ List.mem_cons_self c rest)
    have hrest : sep ∉ rest := fun hm => h (List.mem_cons_of_mem _ hm)
    rw [splitChar, if_neg hc, splitChar_not_mem hrest, consHead]

theorem splitChar_append {sep : Char} : ∀ (a : List Char), sep ∉ a → ∀ b : List Char,
    splitChar sep (a ++ sep :: b) = a :: splitChar sep b
  | [], _, b => by rw [List.nil_append, splitChar, if_pos rfl]
  | c :: a, h, b => by
    have hc : c ≠ sep := fun hcc => h (hcc ▸ List.mem_cons_self c a)
    have ha : sep ∉ a := fun hm => h (List.mem_cons_of_mem _ hm)
    rw [List.cons_append, splitChar, if_neg hc, splitChar_append a ha b, consHead]

/-! #### Composing row decodes -/

theorem decodeRows_nil (headers : List String) (st : DecodedData) :
    decodeRows headers [] st = .ok st := rfl

theorem decodeRows_cons_ok {headers : List String} {st st' : DecodedData} {r : String}
    (h : decodeRow headers st r = .ok st') (rs : List String) :
    decodeRows headers (r :: rs) st = decodeRows headers rs st' := by
  rw [decodeRows, h]

theorem decodeRows_append_ok {headers : List String} {a : List String} {st st' : DecodedData}
    (h : decodeRows headers a st = .ok st') (b : List String) :
    decodeRows headers (a ++ b) st = decodeRows headers b st' := by
  induction a generalizing st with
  | nil =>
    rw [decodeRows] at h
    injection h with h
    subst h
    rw [List.nil_append]
  | cons r rs ih =>
    rw [decodeRows] at h
    rw [List.cons_append, decodeRows]
    cases hdr : decodeRow headers st r with
    | ok st1 =>
      rw [hdr] at h
      exact ih h
    | error e =>
      rw [hdr] at h
      exact Except.noConfusion h

/-! #### Decoding each rendered row family -/

theorem decodeRow_metaVersion (st : DecodedData) (v : Option String) (hv : cellOk v) :
    decodeRow stdHeaderList st (String.mk (renderRow (addRow "meta" "version" v)))
      = .ok { st with version := some (v.getD "") } := by
  have hok : ∀ x ∈ addRow "meta" "version" v, cellOk x := by
    intro x hx
    unfold addRow at hx
    simp only [List.mem_cons, List.not_mem_nil, or_false] at hx
    rcases hx with rfl | rfl | rfl | rfl | rfl | rfl | rfl | rfl | rfl | rfl | rfl | rfl
    · decide
    · decide
    · exact hv
    · decide
    · decide
    · decide
    · decide
    · decide
    · decide
    · decide
    · decide
    · decide
  have hblank : jsIsBlank (renderRow (addRow "meta" "version" v)) = false := by
    unfold addRow
    exact jsIsBlank_renderRow_lit "meta" (by decide) _ _
  rw [decodeRow_render st (addRow "meta" "version" v) (by unfold addRow; simp) hok hblank]
  unfold addRow
  simp only [List.map_cons, List.map_nil, Option.getD_some, headerIdx_data_type, getCell,
    List.getElem?_cons_zero]
  rw [dispatchMeta]
  unfold decodeMetaRow
  simp only [headerIdx_key, headerIdx_value, getCell, List.getElem?_cons_zero,
    List.getElem?_cons_succ, Option.getD_some, Option.some.injEq]
  simp

theorem decodeRow_metaExportDate (st : DecodedData) (v : Option String) (hv : cellOk v) :
    decodeRow stdHeaderList st (String.mk (renderRow (addRow "meta" "exportDate" v)))
      = .ok { st with exportDate := some (v.getD "") } := by
  have hok : ∀ x ∈ addRow "meta" "exportDate" v, cellOk x := by
    intro x hx
    unfold addRow at hx
    simp only [List.mem_cons, List.not_mem_nil, or_false] at hx
    rcases hx with rfl | rfl | rfl | rfl | rfl | rfl | rfl | rfl | rfl | rfl | rfl | rfl
    · decide
    · decide
    · exact hv
    · decide
    · decide
    · decide
    · decide
    · decide
    · decide
    · decide
    · decide
    · decide
  have hblank : jsIsBlank (renderRow (addRow "meta" "exportDate" v)) = false := by
    unfold addRow
    exact jsIsBlank_renderRow_lit "meta" (by decide) _ _
  rw [decodeRow_render st (addRow "meta" "exportDate" v) (by unfold addRow; simp) hok hblank]
  unfold addRow
  simp only [List.map_cons, List.map_nil, Option.getD_some, headerIdx_data_type, getCell,
    List.getElem?_cons_zero]
  rw [dispatchMeta]
  unfold decodeMetaRow
  simp only [headerIdx_key, headerIdx_value, getCell, List.getElem?_cons_zero,
    List.getElem?_cons_succ, Option.getD_some, Option.some.injEq]
  simp

theorem decodeRow_waterGoal (st : DecodedData) (v : Option String) (hv : cellOk v) :
    decodeRow stdHeaderList st (String.mk (renderRow (addRow "water" "goal" v)))
      = .ok { st with waterGoal := some (v.getD "") } := by
  have hok : ∀ x ∈ addRow "water" "goal" v, cellOk x := by
    intro x hx
    unfold addRow at hx
    simp only [List.mem_cons, List.not_mem_nil, or_false] at hx
    rcases hx with rfl | rfl | rfl | rfl | rfl | rfl | rfl | rfl | rfl | rfl | rfl | rfl
    · decide
    · decide
    · exact hv
    · decide
    · decide
    · decide
    · decide
    · decide
    · decide
    · decide
    · decide
    · decide
  have hblank : jsIsBlank (renderRow (addRow "water" "goal" v)) = false := by
    unfold addRow
    exact jsIsBlank_renderRow_lit "water" (by decide) _ _
  rw [decodeRow_render st (addRow "water" "goal" v) (by unfold addRow; simp) hok hblank]
  unfold addRow
  simp only [List.map_cons, List.map_nil, Option.getD_some, headerIdx_data_type, getCell,
    List.getElem?_cons_zero]
  rw [dispatchWater]
  unfold decodeWaterRow
  simp only [headerIdx_key, headerIdx_value, getCell, List.getElem?_cons_zero,
    List.getElem?_cons_succ, Option.getD_some, Option.some.injEq]
  simp

theorem decodeRow_waterIntake (st : DecodedData) (v : Option String) (hv : cellOk v) :
    decodeRow stdHeaderList st (String.mk (renderRow (addRow "water" "intake" v)))
      = .ok { st with waterIntake := some (v.getD "") } := by
  have hok : ∀ x ∈ addRow "water" "intake" v, cellOk x := by
    intro x hx
    unfold addRow at hx
    simp only [List.mem_cons, List.not_mem_nil, or_false] at hx
    rcases hx with rfl | rfl | rfl | rfl | rfl | rfl | rfl | rfl | rfl | rfl | rfl | rfl
    · decide
    · decide
    · exact hv
    · decide
    · decide
    · decide
    · decide
    · decide
    · decide
    · decide
    · decide
    · decide
  have hblank : jsIsBlank (renderRow (addRow "water" "intake" v)) = false := by
    unfold addRow
    exact jsIsBlank_renderRow_lit "water" (by decide) _ _
  rw [decodeRow_render st (addRow "water" "intake" v) (by unfold addRow; simp) hok hblank]
  unfold addRow
  simp only [List.map_cons, List.map_nil, Option.getD_some, headerIdx_data_type, getCell,
    List.getElem?_cons_zero]
  rw [dispatchWater]
  unfold decodeWaterRow
  simp only [headerIdx_key, headerIdx_value, getCell, List.getElem?_cons_zero,
    List.getElem?_cons_succ, Option.getD_some, Option.some.injEq]
  simp

theorem decodeRow_proteinGoal (st : DecodedData) (v : Option String) (hv : cellOk v) :
    decodeRow stdHeaderList st (String.mk (renderRow (addRow "protein" "goal" v)))
      = .ok { st with proteinGoal := some (v.getD "") } := by
  have hok : ∀ x ∈ addRow "protein" "goal" v, cellOk x := by
    intro x hx
    unfold addRow at hx
    simp only [List.mem_cons, List.not_mem_nil, or_false] at hx
    rcases hx with rfl | rfl | rfl | rfl | rfl | rfl | rfl | rfl | rfl | rfl | rfl | rfl
    · decide
    · decide
    · exact hv
    · decide
    · decide
    · decide
    · decide
    · decide
    · decide
    · decide
    · decide
    · decide
  have hblank : jsIsBlank (renderRow (addRow "protein" "goal" v)) = false := by
    unfold addRow
    exact jsIsBlank_renderRow_lit "protein" (by decide) _ _
  rw [decodeRow_render st (addRow "protein" "goal" v) (by unfold addRow; simp) hok hblank]
  unfold addRow
  simp only [List.map_cons, List.map_nil, Option.getD_some, headerIdx_data_type, getCell,
    List.getElem?_cons_zero]
  rw [dispatchProtein]
  unfold decodeProteinRow
  simp only [headerIdx_key, headerIdx_value, getCell, List.getElem?_cons_zero,
    List.getElem?_cons_succ, Option.getD_some, Option.some.injEq]
  simp

theorem decodeRow_proteinIntake (st : DecodedData) (v : Option String) (hv : cellOk v) :
    decodeRow stdHeaderList st (String.mk (renderRow (addRow "protein" "intake" v)))
      = .ok { st with proteinIntake := some (v.getD "") } := by
  have hok : ∀ x ∈ addRow "protein" "intake" v, cellOk x := by
    intro x hx
    unfold addRow at hx
    simp only [List.mem_cons, List.not_mem_nil, or_false] at hx
    rcases hx with rfl | rfl | rfl | rfl | rfl | rfl | rfl | rfl | rfl | rfl | rfl | rfl
    · decide
    · decide
    · exact hv
    · decide
    · decide
    · decide
    · decide
    · decide
    · decide
    · decide
    · decide
    · decide
  have hblank : jsIsBlank (renderRow (addRow "protein" "intake" v)) = false := by
    unfold addRow
    exact jsIsBlank_renderRow_lit "protein" (by decide) _ _
  rw [decodeRow_render st (addRow "protein" "intake" v) (by unfold addRow; simp) hok hblank]
  unfold addRow
  simp only [List.map_cons, List.map_nil, Option.getD_some, headerIdx_data_type, getCell,
    List.getElem?_cons_zero]
  rw [dispatchProtein]
  unfold decodeProteinRow
  simp only [headerIdx_key, headerIdx_value, getCell, List.getElem?_cons_zero,
    List.getElem?_cons_succ, Option.getD_some, Option.some.injEq]
  simp

theorem decodeRow_settingsTheme (st : DecodedData) (v : Option String) (hv : cellOk v) :
    decodeRow stdHeaderList st (String.mk (renderRow (addRow "settings" "theme" v)))
      = .ok { st with theme := some (v.getD "") } := by
  have hok : ∀ x ∈ addRow "settings" "theme" v, cellOk x := by
    intro x hx
    unfold addRow at hx
    simp only [List.mem_cons, List.not_mem_nil, or_false] at hx
    rcases hx with rfl | rfl | rfl | rfl | rfl | rfl | rfl | rfl | rfl | rfl | rfl | rfl
    · decide
    · decide
    · exact hv
    · decide
    · decide
    · decide
    · decide
    · decide
    · decide
    · decide
    · decide
    · decide
  have hblank : jsIsBlank (renderRow (addRow "settings" "theme" v)) = false := by
    unfold addRow
    exact jsIsBlank_renderRow_lit "settings" (by decide) _ _
  rw [decodeRow_render st (addRow "settings" "theme" v) (by unfold addRow; simp) hok hblank]
  unfold addRow
  simp only [List.map_cons, List.map_nil, Option.getD_some, headerIdx_data_type, getCell,
    List.getElem?_cons_zero]
  rw [dispatchSettings]
  unfold decodeSettingsRow
  simp only [headerIdx_key, headerIdx_value, getCell, List.getElem?_cons_zero,
    List.getElem?_cons_succ, Option.getD_some, Option.some.injEq]
  simp

theorem decodeRow_settingsReminder (st : DecodedData) (v : Option String) (hv : cellOk v) :
    decodeRow stdHeaderList st (String.mk (renderRow (addRow "settings" "reminder" v)))
      = .ok { st with reminder := some (v.getD "") } := by
  have hok : ∀ x ∈ addRow "settings" "reminder" v, cellOk x := by
    intro x hx
    unfold addRow at hx
    simp only [List.mem_cons, List.not_mem_nil, or_false] at hx
    rcases hx with rfl | rfl | rfl | rfl | rfl | rfl | rfl | rfl | rfl | rfl | rfl | rfl
    · decide
    · decide
    · exact hv
    · decide
    · decide
    · decide
    · decide
    · decide
    · decide
    · decide
    · decide
    · decide
  have hblank : jsIsBlank (renderRow (addRow "settings" "reminder" v)) = false := by
    unfold addRow
    exact jsIsBlank_renderRow_lit "settings" (by decide) _ _
  rw [decodeRow_render st (addRow "settings" "reminder" v) (by unfold addRow; simp) hok hblank]
  unfold addRow
  simp only [List.map_cons, List.map_nil, Option.getD_some, headerIdx_data_type, getCell,
    List.getElem?_cons_zero]
  rw [dispatchSettings]
  unfold decodeSettingsRow
  simp only [headerIdx_key, headerIdx_value, getCell, List.getElem?_cons_zero,
    List.getElem?_cons_succ, Option.getD_some, Option.some.injEq]
  simp

theorem decodeRow_proteinHist (st : DecodedData) (d : String) (i : Nat) (e : IntakeEntry)
    (hd : fieldOk d) (hts : fieldOk e.timestamp) :
    decodeRow stdHeaderList st (String.mk (renderRow (intakeHistRow "protein_history" d i e)))
      = .ok { st with proteinHistory := pushEntry st.proteinHistory d (liftIntakeEntry e) } := by
  have hok : ∀ x ∈ intakeHistRow "protein_history" d i e, cellOk x := by
    intro x hx
    unfold intakeHistRow at hx
    simp only [List.mem_cons, List.not_mem_nil, or_false] at hx
    rcases hx with rfl | rfl | rfl | rfl | rfl | rfl | rfl | rfl | rfl | rfl | rfl | rfl
    · decide
    · exact fieldOk_underscore d (natDecimalStr i) hd (fieldOk_natDecimalStr i)
    · decide
    · exact hd
    · exact fieldOk_intDecimalStr e.amount
    · exact hts
    all_goals decide
  have hblank : jsIsBlank (renderRow (intakeHistRow "protein_history" d i e)) = false := by
    unfold intakeHistRow
    exact jsIsBlank_renderRow_lit "protein_history" (by decide) _ _
  rw [decodeRow_render st (intakeHistRow "protein_history" d i e)
    (by unfold intakeHistRow; simp) hok hblank]
  unfold intakeHistRow
  simp only [List.map_cons, List.map_nil, Option.getD_some, headerIdx_data_type, getCell,
    List.getElem?_cons_zero]
  rw [dispatchProteinHistory]
  unfold decodeProteinHistRow
  simp only [headerIdx_date, headerIdx_amount, headerIdx_timestamp, getCell,
    List.getElem?_cons_zero, List.getElem?_cons_succ, cellKey, Option.getD_some,
    jsParseIntCell_int]
  rfl

theorem decodeRow_workoutHist (st : DecodedData) (d : String) (i : Nat) (e : WEntry)
    (hd : fieldOk d) (hts : fieldOk e.timestamp) (hwt : fieldOk e.wtype) :
    decodeRow stdHeaderList st (String.mk (renderRow (workoutHistRow d i e)))
      = .ok { st with workoutHistory := pushEntry st.workoutHistory d (liftWEntry e) } := by
  have hok : ∀ x ∈ workoutHistRow d i e, cellOk x := by
    intro x hx
    unfold workoutHistRow at hx
    simp only [List.mem_cons, List.not_mem_nil, or_false] at hx
    rcases hx with rfl | rfl | rfl | rfl | rfl | rfl | rfl | rfl | rfl | rfl | rfl | rfl
    · decide
    · exact fieldOk_underscore d (natDecimalStr i) hd (fieldOk_natDecimalStr i)
    · decide
    · exact hd
    · decide
    · exact hts
    · exact hwt
    · exact fieldOk_intDecimalStr e.count
    all_goals decide
  have hblank : jsIsBlank (renderRow (workoutHistRow d i e)) = false := by
    unfold workoutHistRow
    exact jsIsBlank_renderRow_lit "workout_history" (by decide) _ _
  rw [decodeRow_render st (workoutHistRow d i e) (by unfold workoutHistRow; simp) hok hblank]
  unfold workoutHistRow
  simp only [List.map_cons, List.map_nil, Option.getD_some, headerIdx_data_type, getCell,
    List.getElem?_cons_zero]
  rw [dispatchWorkoutHistory]
  unfold decodeWorkoutHistRow
  simp only [headerIdx_date, headerIdx_type, headerIdx_count, headerIdx_timestamp, getCell,
    List.getElem?_cons_zero, List.getElem?_cons_succ, cellKey, Option.getD_some,
    jsParseIntCell_int]
  rfl

theorem decide_truthStr (b : Bool) :
    decide ((some (if b then "true" else "false") : Option String) = some "true") = b := by
  cases b <;> decide

theorem decodeRow_workoutState (st : DecodedData) (t : String) (w : WorkoutState)
    (ht : fieldOk t) :
    decodeRow stdHeaderList st (String.mk (renderRow (workoutStateRow t w)))
      = .ok { st with workoutState := setAssoc st.workoutState t ⟨w.completed, some w.order⟩ } := by
  have hok : ∀ x ∈ workoutStateRow t w, cellOk x := by
    intro x hx
    unfold workoutStateRow at hx
    simp only [List.mem_cons, List.not_mem_nil, or_false] at hx
    rcases hx with rfl | rfl | rfl | rfl | rfl | rfl | rfl | rfl | rfl | rfl | rfl | rfl
    · decide
    · exact ht
    · decide
    · decide
    · decide
    · decide
    · exact ht
    · decide
    · decide
    · decide
    · cases w.completed <;> decide
    · exact fieldOk_intDecimalStr w.order
  have hblank : jsIsBlank (renderRow (workoutStateRow t w)) = false := by
    unfold workoutStateRow
    exact jsIsBlank_renderRow_lit "workout_state" (by decide) _ _
  rw [decodeRow_render st (workoutStateRow t w) (by unfold workoutStateRow; simp) hok hblank]
  unfold workoutStateRow
  simp only [List.map_cons, List.map_nil, Option.getD_some, headerIdx_data_type, getCell,
    List.getElem?_cons_zero]
  rw [dispatchWorkoutState]
  unfold decodeWorkoutStateRow
  simp only [headerIdx_type, headerIdx_completed, headerIdx_order, getCell,
    List.getElem?_cons_zero, List.getElem?_cons_succ, Option.getD_some, cellKey,
    jsParseIntCell_int, decide_truthStr]

theorem decodeRow_workoutCount (st : DecodedData) (t : String) (c : Int)
    (ht : fieldOk t) :
    decodeRow stdHeaderList st (String.mk (renderRow (workoutCountRow t c)))
      = .ok { st with workoutCount := setAssoc st.workoutCount t (some c) } := by
  have hok : ∀ x ∈ workoutCountRow t c, cellOk x := by
    intro x hx
    unfold workoutCountRow at hx
    simp only [List.mem_cons, List.not_mem_nil, or_false] at hx
    rcases hx with rfl | rfl | rfl | rfl | rfl | rfl | rfl | rfl | rfl | rfl | rfl | rfl
    · decide
    · exact ht
    · decide
    · decide
    · decide
    · decide
    · exact ht
    · exact fieldOk_intDecimalStr c
    all_goals decide
  have hblank : jsIsBlank (renderRow (workoutCountRow t c)) = false := by
    unfold workoutCountRow
    exact jsIsBlank_renderRow_lit "workout_count" (by decide) _ _
  rw [decodeRow_render st (workoutCountRow t c) (by unfold workoutCountRow; simp) hok hblank]
  unfold workoutCountRow
  simp only [List.map_cons, List.map_nil, Option.getD_some, headerIdx_data_type, getCell,
    List.getElem?_cons_zero]
  rw [dispatchWorkoutCount]
  unfold decodeWorkoutCountRow
  simp only [headerIdx_type, headerIdx_count, getCell, List.getElem?_cons_zero,
    List.getElem?_cons_succ, Option.getD_some, cellKey, jsParseIntCell_int]

theorem decodeRow_habit (st : DecodedData) (i : Nat) (hb : Habit)
    (hn : fieldOk hb.name) (hc : fieldOk hb.color) (hlen : st.habitsData.length = i) :
    decodeRow stdHeaderList st (String.mk (renderRow (habitRow i hb)))
      = .ok { st with habitsData := st.habitsData ++ [⟨some hb.name, some hb.color, []⟩] } := by
  have hok : ∀ x ∈ habitRow i hb, cellOk x := by
    intro x hx
    unfold habitRow at hx
    simp only [List.mem_cons, List.not_mem_nil, or_false] at hx
    rcases hx with rfl | rfl | rfl | rfl | rfl | rfl | rfl | rfl | rfl | rfl | rfl | rfl
    · decide
    · exact fieldOk_natDecimalStr i
    · decide
    · decide
    · decide
    · decide
    · decide
    · decide
    · exact hn
    · exact hc
    all_goals decide
  have hblank : jsIsBlank (renderRow (habitRow i hb)) = false := by
    unfold habitRow
    exact jsIsBlank_renderRow_lit "habit" (by decide) _ _
  rw [decodeRow_render st (habitRow i hb) (by unfold habitRow; simp) hok hblank]
  unfold habitRow
  simp only [List.map_cons, List.map_nil, Option.getD_some, headerIdx_data_type, getCell,
    List.getElem?_cons_zero]
  rw [dispatchHabit]
  unfold decodeHabitRow
  simp only [headerIdx_key, headerIdx_name, headerIdx_color, getCell, List.getElem?_cons_zero,
    List.getElem?_cons_succ, Option.getD_some, jsParseIntCell_nat]
  rw [if_neg (by omega)]
  simp only [Int.toNat_natCast]
  rw [growHabits_one hlen, ← hlen, getD_append_last, set_append_last]
  rfl

theorem decodeRow_habitHist (st : DecodedData) (i : Nat) (d status : String)
    (hd : fieldOk d) (hdu : '_' ∉ d.data) (hs : fieldOk status)
    (front : List DecHabit) (hb0 : DecHabit)
    (hfront : st.habitsData = front ++ [hb0]) (hlen : front.length = i) :
    decodeRow stdHeaderList st (String.mk (renderRow (habitHistRow i d status)))
      = .ok { st with habitsData := front ++ [{ hb0 with history := setAssoc hb0.history d (some status) }] } := by
  have hok : ∀ x ∈ habitHistRow i d status, cellOk x := by
    intro x hx
    unfold habitHistRow at hx
    simp only [List.mem_cons, List.not_mem_nil, or_false] at hx
    rcases hx with rfl | rfl | rfl | rfl | rfl | rfl | rfl | rfl | rfl | rfl | rfl | rfl
    · decide
    · exact fieldOk_underscore (natDecimalStr i) d (fieldOk_natDecimalStr i) hd
    · exact hs
    · exact hd
    all_goals decide
  have hblank : jsIsBlank (renderRow (habitHistRow i d status)) = false := by
    unfold habitHistRow
    exact jsIsBlank_renderRow_lit "habit_history" (by decide) _ _
  rw [decodeRow_render st (habitHistRow i d status) (by unfold habitHistRow; simp) hok hblank]
  unfold habitHistRow
  simp only [List.map_cons, List.map_nil, Option.getD_some, headerIdx_data_type, getCell,
    List.getElem?_cons_zero]
  rw [dispatchHabitHistory]
  unfold decodeHabitHistRow
  simp only [headerIdx_key, headerIdx_value, getCell, List.getElem?_cons_zero,
    List.getElem?_cons_succ, Option.getD_some]
  rw [data_underscore, show (natDecimalStr i).data = natDecimal i from rfl,
    splitChar_append (natDecimal i) (fun hm => (natDecimal_chars hm).2.2.2 rfl) d.data,
    splitChar_not_mem hdu]
  simp only [List.headD_cons, jsParseIntChars_natDecimal]
  rw [if_neg (by omega)]
  simp only [Int.toNat_natCast, List.getElem?_cons_zero, List.getElem?_cons_succ,
    Option.map_some, cellKey, Option.getD_some, mk_data]
  rw [hfront, growHabits_le (by simp [hlen]), ← hlen, getD_append_last, set_append_last]
  rfl

/-! #### History segments -/

theorem snd_mem_of_mem_enumFrom {α : Type} : ∀ {l : List α} {n : Nat} {q : Nat × α},
    q ∈ l.enumFrom n → q.2 ∈ l
  | [], _, _, h => by simp [List.enumFrom] at h
  | a :: t, n, q, h => by
    rw [List.enumFrom] at h
    rcases List.mem_cons.mp h with rfl | h
    · exact List.mem_cons_self _ _
    · exact List.mem_cons_of_mem _ (snd_mem_of_mem_enumFrom h)

theorem snd_mem_of_mem_enum {α : Type} {l : List α} {q : Nat × α} (h : q ∈ l.enum) :
    q.2 ∈ l :=
  snd_mem_of_mem_enumFrom h

theorem enum_map_snd_comp {α β : Type} (l : List α) (f : α → β) :
    l.enum.map (fun q => f q.2) = l.map f := by
  rw [show (fun q : Nat × α => f q.2) = f ∘ Prod.snd from rfl, ← List.map_map,
    List.enum_map_snd]

theorem enum_ne_nil {α : Type} {l : List α} (h : l ≠ []) : l.enum ≠ [] := by
  cases l with
  | nil => exact absurd rfl h
  | cons a t => simp [List.enum, List.enumFrom]

theorem decodeRows_waterDate (d : String) (hd : fieldOk d)
    (pairs : List (Nat × IntakeEntry)) (hts : ∀ q ∈ pairs, fieldOk q.2.timestamp) :
    ∀ (st : DecodedData) (prior : List (String × List DecEntry)) (done : List DecEntry),
      st.waterHistory = prior ++ [(d, done)] → d ∉ prior.map Prod.fst →
      decodeRows stdHeaderList (pairs.map (fun ie => String.mk (renderRow (intakeHistRow "water_history" d ie.1 ie.2)))) st = .ok { st with waterHistory := prior ++ [(d, done ++ pairs.map (fun q => liftIntakeEntry q.2))] } := by
  induction pairs with
  | nil =>
    intro st prior done hst hfresh
    rw [List.map_nil, List.map_nil, List.append_nil, ← hst, decodeRows_nil]
  | cons q pairs ih =>
    intro st prior done hst hfresh
    rw [List.map_cons, decodeRows_cons_ok
      (decodeRow_waterHist st d q.1 q.2 hd (hts q (List.mem_cons_self q pairs))) _]
    have hpush : pushEntry st.waterHistory d (liftIntakeEntry q.2)
        = prior ++ [(d, done ++ [liftIntakeEntry q.2])] := by
      rw [hst, pushEntry_last prior d done _ hfresh]
    rw [hpush, ih (fun x hx => hts x (List.mem_cons_of_mem _ hx)) _ prior
      (done ++ [liftIntakeEntry q.2]) rfl hfresh]
    simp only [List.map_cons, List.append_assoc, List.singleton_append]

theorem decodeRows_waterDateFull (d : String) (hd : fieldOk d)
    (pairs : List (Nat × IntakeEntry)) (hne : pairs ≠ [])
    (hts : ∀ q ∈ pairs, fieldOk q.2.timestamp)
    (st : DecodedData) (acc : List (String × List DecEntry))
    (hst : st.waterHistory = acc) (hfresh : d ∉ acc.map Prod.fst) :
    decodeRows stdHeaderList (pairs.map (fun ie => String.mk (renderRow (intakeHistRow "water_history" d ie.1 ie.2)))) st = .ok { st with waterHistory := acc ++ [(d, pairs.map (fun q => liftIntakeEntry q.2))] } := by
  obtain ⟨q, rest, rfl⟩ : ∃ q rest, pairs = q :: rest := by
    cases pairs with
    | nil => exact absurd rfl hne
    | cons a b => exact ⟨a, b, rfl⟩
  rw [List.map_cons, decodeRows_cons_ok
    (decodeRow_waterHist st d q.1 q.2 hd (hts q (List.mem_cons_self q rest))) _]
  have hpush : pushEntry st.waterHistory d (liftIntakeEntry q.2)
      = acc ++ [(d, [liftIntakeEntry q.2])] := by
    rw [hst, pushEntry_fresh acc d _ hfresh]
  rw [hpush, decodeRows_waterDate d hd rest (fun x hx => hts x (List.mem_cons_of_mem _ hx))
    _ acc [liftIntakeEntry q.2] rfl hfresh]
  simp only [List.map_cons, List.singleton_append]

theorem decodeRows_waterSegment :
    ∀ (h : List (String × List IntakeEntry)), intakeHistOk h →
    ∀ (st : DecodedData) (acc : List (String × List DecEntry)),
      st.waterHistory = acc → (∀ k ∈ h.map Prod.fst, k ∉ acc.map Prod.fst) →
      decodeRows stdHeaderList ((h.map (fun p => p.2.enum.map (fun ie => String.mk (renderRow (intakeHistRow "water_history" p.1 ie.1 ie.2))))).flatten) st = .ok { st with waterHistory := acc ++ liftIntakeHist h }
  | [], _, st, acc, hst, _ => by
    rw [show liftIntakeHist [] = [] from rfl, List.append_nil, ← hst, List.map_nil,
      show ([] : List (List String)).flatten = [] from rfl, decodeRows_nil]
  | ⟨k, es⟩ :: t, hok, st, acc, hst, hdisj => by
    have hk := hok.2 ⟨k, es⟩ (List.mem_cons_self _ _)
    have hnod := List.nodup_cons.mp hok.1
    have hokt : intakeHistOk t :=
      ⟨hnod.2, fun q hq => hok.2 q (List.mem_cons_of_mem _ hq)⟩
    rw [List.map_cons, List.flatten_cons]
    have hdate := decodeRows_waterDateFull k hk.1 es.enum (enum_ne_nil hk.2.1)
      (fun q hq => hk.2.2 q.2 (snd_mem_of_mem_enum hq)) st acc hst (hdisj k (by simp))
    rw [enum_map_snd_comp es liftIntakeEntry] at hdate
    rw [decodeRows_append_ok hdate _]
    have hstep := decodeRows_waterSegment t hokt
      { st with waterHistory := acc ++ [(k, es.map liftIntakeEntry)] }
      (acc ++ [(k, es.map liftIntakeEntry)]) rfl ?later
    case later =>
      intro k2 hk2
      simp only [List.map_append, List.map_cons, List.map_nil, List.mem_append,
        List.mem_cons, List.not_mem_nil]
      push_neg
      refine ⟨hdisj k2 (by simp [hk2]), ?_, fun hf => hf⟩
      intro hkk
      exact hnod.1 (hkk ▸ hk2)
    rw [hstep]
    simp only [liftIntakeHist, List.map_cons, List.append_assoc, List.singleton_append]

theorem decodeRows_proteinDate (d : String) (hd : fieldOk d)
    (pairs : List (Nat × IntakeEntry)) (hts : ∀ q ∈ pairs, fieldOk q.2.timestamp) :
    ∀ (st : DecodedData) (prior : List (String × List DecEntry)) (done : List DecEntry),
      st.proteinHistory = prior ++ [(d, done)] → d ∉ prior.map Prod.fst →
      decodeRows stdHeaderList (pairs.map (fun ie => String.mk (renderRow (intakeHistRow "protein_history" d ie.1 ie.2)))) st = .ok { st with proteinHistory := prior ++ [(d, done ++ pairs.map (fun q => liftIntakeEntry q.2))] } := by
  induction pairs with
  | nil =>
    intro st prior done hst hfresh
    rw [List.map_nil, List.map_nil, List.append_nil, ← hst, decodeRows_nil]
  | cons q pairs ih =>
    intro st prior done hst hfresh
    rw [List.map_cons, decodeRows_cons_ok
      (decodeRow_proteinHist st d q.1 q.2 hd (hts q (List.mem_cons_self q pairs))) _]
    have hpush : pushEntry st.proteinHistory d (liftIntakeEntry q.2)
        = prior ++ [(d, done ++ [liftIntakeEntry q.2])] := by
      rw [hst, pushEntry_last prior d done _ hfresh]
    rw [hpush, ih (fun x hx => hts x (List.mem_cons_of_mem _ hx)) _ prior
      (done ++ [liftIntakeEntry q.2]) rfl hfresh]
    simp only [List.map_cons, List.append_assoc, List.singleton_append]

theorem decodeRows_proteinDateFull (d : String) (hd : fieldOk d)
    (pairs : List (Nat × IntakeEntry)) (hne : pairs ≠ [])
    (hts : ∀ q ∈ pairs, fieldOk q.2.timestamp)
    (st : DecodedData) (acc : List (String × List DecEntry))
    (hst : st.proteinHistory = acc) (hfresh : d ∉ acc.map Prod.fst) :
    decodeRows stdHeaderList (pairs.map (fun ie => String.mk (renderRow (intakeHistRow "protein_history" d ie.1 ie.2)))) st = .ok { st with proteinHistory := acc ++ [(d, pairs.map (fun q => liftIntakeEntry q.2))] } := by
  obtain ⟨q, rest, rfl⟩ : ∃ q rest, pairs = q :: rest := by
    cases pairs with
    | nil => exact absurd rfl hne
    | cons a b => exact ⟨a, b, rfl⟩
  rw [List.map_cons, decodeRows_cons_ok
    (decodeRow_proteinHist st d q.1 q.2 hd (hts q (List.mem_cons_self q rest))) _]
  have hpush : pushEntry st.proteinHistory d (liftIntakeEntry q.2)
      = acc ++ [(d, [liftIntakeEntry q.2])] := by
    rw [hst, pushEntry_fresh acc d _ hfresh]
  rw [hpush, decodeRows_proteinDate d hd rest (fun x hx => hts x (List.mem_cons_of_mem _ hx))
    _ acc [liftIntakeEntry q.2] rfl hfresh]
  simp only [List.map_cons, List.singleton_append]

theorem decodeRows_proteinSegment :
    ∀ (h : List (String × List IntakeEntry)), intakeHistOk h →
    ∀ (st : DecodedData) (acc : List (String × List DecEntry)),
      st.proteinHistory = acc → (∀ k ∈ h.map Prod.fst, k ∉ acc.map Prod.fst) →
      decodeRows stdHeaderList ((h.map (fun p => p.2.enum.map (fun ie => String.mk (renderRow (intakeHistRow "protein_history" p.1 ie.1 ie.2))))).flatten) st = .ok { st with proteinHistory := acc ++ liftIntakeHist h }
  | [], _, st, acc, hst, _ => by
    rw [show liftIntakeHist [] = [] from rfl, List.append_nil, ← hst, List.map_nil,
      show ([] : List (List String)).flatten = [] from rfl, decodeRows_nil]
  | ⟨k, es⟩ :: t, hok, st, acc, hst, hdisj => by
    have hk := hok.2 ⟨k, es⟩ (List.mem_cons_self _ _)
    have hnod := List.nodup_cons.mp hok.1
    have hokt : intakeHistOk t :=
      ⟨hnod.2, fun q hq => hok.2 q (List.mem_cons_of_mem _ hq)⟩
    rw [List.map_cons, List.flatten_cons]
    have hdate := decodeRows_proteinDateFull k hk.1 es.enum (enum_ne_nil hk.2.1)
      (fun q hq => hk.2.2 q.2 (snd_mem_of_mem_enum hq)) st acc hst (hdisj k (by simp))
    rw [enum_map_snd_comp es liftIntakeEntry] at hdate
    rw [decodeRows_append_ok hdate _]
    have hstep := decodeRows_proteinSegment t hokt
      { st with proteinHistory := acc ++ [(k, es.map liftIntakeEntry)] }
      (acc ++ [(k, es.map liftIntakeEntry)]) rfl ?later
    case later =>
      intro k2 hk2
      simp only [List.map_append, List.map_cons, List.map_nil, List.mem_append,
        List.mem_cons, List.not_mem_nil]
      push_neg
      refine ⟨hdisj k2 (by simp [hk2]), ?_, fun hf => hf⟩
      intro hkk
      exact hnod.1 (hkk ▸ hk2)
    rw [hstep]
    simp only [liftIntakeHist, List.map_cons, List.append_assoc, List.singleton_append]

theorem decodeRows_workoutDate (d : String) (hd : fieldOk d)
    (pairs : List (Nat × WEntry)) (hts : ∀ q ∈ pairs, fieldOk q.2.timestamp ∧ fieldOk q.2.wtype) :
    ∀ (st : DecodedData) (prior : List (String × List DecWEntry)) (done : List DecWEntry),
      st.workoutHistory = prior ++ [(d, done)] → d ∉ prior.map Prod.fst →
      decodeRows stdHeaderList (pairs.map (fun ie => String.mk (renderRow (workoutHistRow d ie.1 ie.2)))) st = .ok { st with workoutHistory := prior ++ [(d, done ++ pairs.map (fun q => liftWEntry q.2))] } := by
  induction pairs with
  | nil =>
    intro st prior done hst hfresh
    rw [List.map_nil, List.map_nil, List.append_nil, ← hst, decodeRows_nil]
  | cons q pairs ih =>
    intro st prior done hst hfresh
    rw [List.map_cons, decodeRows_cons_ok
      (decodeRow_workoutHist st d q.1 q.2 hd (hts q (List.mem_cons_self q pairs)).1
        (hts q (List.mem_cons_self q pairs)).2) _]
    have hpush : pushEntry st.workoutHistory d (liftWEntry q.2)
        = prior ++ [(d, done ++ [liftWEntry q.2])] := by
      rw [hst, pushEntry_last prior d done _ hfresh]
    rw [hpush, ih (fun x hx => hts x (List.mem_cons_of_mem _ hx)) _ prior
      (done ++ [liftWEntry q.2]) rfl hfresh]
    simp only [List.map_cons, List.append_assoc, List.singleton_append]

theorem decodeRows_workoutDateFull (d : String) (hd : fieldOk d)
    (pairs : List (Nat × WEntry)) (hne : pairs ≠ [])
    (hts : ∀ q ∈ pairs, fieldOk q.2.timestamp ∧ fieldOk q.2.wtype)
    (st : DecodedData) (acc : List (String × List DecWEntry))
    (hst : st.workoutHistory = acc) (hfresh : d ∉ acc.map Prod.fst) :
    decodeRows stdHeaderList (pairs.map (fun ie => String.mk (renderRow (workoutHistRow d ie.1 ie.2)))) st = .ok { st with workoutHistory := acc ++ [(d, pairs.map (fun q => liftWEntry q.2))] } := by
  obtain ⟨q, rest, rfl⟩ : ∃ q rest, pairs = q :: rest := by
    cases pairs with
    | nil => exact absurd rfl hne
    | cons a b => exact ⟨a, b, rfl⟩
  rw [List.map_cons, decodeRows_cons_ok
    (decodeRow_workoutHist st d q.1 q.2 hd (hts q (List.mem_cons_self q rest)).1
      (hts q (List.mem_cons_self q rest)).2) _]
  have hpush : pushEntry st.workoutHistory d (liftWEntry q.2)
      = acc ++ [(d, [liftWEntry q.2])] := by
    rw [hst, pushEntry_fresh acc d _ hfresh]
  rw [hpush, decodeRows_workoutDate d hd rest (fun x hx => hts x (List.mem_cons_of_mem _ hx))
    _ acc [liftWEntry q.2] rfl hfresh]
  simp only [List.map_cons, List.singleton_append]

theorem decodeRows_workoutSegment :
    ∀ (h : List (String × List WEntry)), workoutHistOk h →
    ∀ (st : DecodedData) (acc : List (String × List DecWEntry)),
      st.workoutHistory = acc → (∀ k ∈ h.map Prod.fst, k ∉ acc.map Prod.fst) →
      decodeRows stdHeaderList ((h.map (fun p => p.2.enum.map (fun ie => String.mk (renderRow (workoutHistRow p.1 ie.1 ie.2))))).flatten) st = .ok { st with workoutHistory := acc ++ liftWorkoutHist h }
  | [], _, st, acc, hst, _ => by
    rw [show liftWorkoutHist [] = [] from rfl, List.append_nil, ← hst, List.map_nil,
      show ([] : List (List String)).flatten = [] from rfl, decodeRows_nil]
  | ⟨k, es⟩ :: t, hok, st, acc, hst, hdisj => by
    have hk := hok.2 ⟨k, es⟩ (List.mem_cons_self _ _)
    have hnod := List.nodup_cons.mp hok.1
    have hokt : workoutHistOk t :=
      ⟨hnod.2, fun q hq => hok.2 q (List.mem_cons_of_mem _ hq)⟩
    rw [List.map_cons, List.flatten_cons]
    have hdate := decodeRows_workoutDateFull k hk.1 es.enum (enum_ne_nil hk.2.1)
      (fun q hq => hk.2.2 q.2 (snd_mem_of_mem_enum hq)) st acc hst (hdisj k (by simp))
    rw [enum_map_snd_comp es liftWEntry] at hdate
    rw [decodeRows_append_ok hdate _]
    have hstep := decodeRows_workoutSegment t hokt
      { st with workoutHistory := acc ++ [(k, es.map liftWEntry)] }
      (acc ++ [(k, es.map liftWEntry)]) rfl ?later
    case later =>
      intro k2 hk2
      simp only [List.map_append, List.map_cons, List.map_nil, List.mem_append,
        List.mem_cons, List.not_mem_nil]
      push_neg
      refine ⟨hdisj k2 (by simp [hk2]), ?_, fun hf => hf⟩
      intro hkk
      exact hnod.1 (hkk ▸ hk2)
    rw [hstep]
    simp only [liftWorkoutHist, List.map_cons, List.append_assoc, List.singleton_append]

theorem decodeRows_workoutStateSegment :
    ∀ (l : List (String × WorkoutState)), (∀ p ∈ l, fieldOk p.1) →
    ∀ st : DecodedData,
      decodeRows stdHeaderList (l.map (fun p => String.mk (renderRow (workoutStateRow p.1 p.2)))) st = .ok { st with workoutState := l.foldl (fun acc p => setAssoc acc p.1 ⟨p.2.completed, some p.2.order⟩) st.workoutState }
  | [], _, st => by rw [List.map_nil, decodeRows_nil, List.foldl_nil]
  | p :: t, hok, st => by
    rw [List.map_cons, decodeRows_cons_ok
      (decodeRow_workoutState st p.1 p.2 (hok p (List.mem_cons_self _ _))) _,
      decodeRows_workoutStateSegment t (fun q hq => hok q (List.mem_cons_of_mem _ hq)) _,
      List.foldl_cons]

theorem decodeRows_workoutCountSegment :
    ∀ (l : List (String × Int)), (∀ p ∈ l, fieldOk p.1) →
    ∀ st : DecodedData,
      decodeRows stdHeaderList (l.map (fun p => String.mk (renderRow (workoutCountRow p.1 p.2)))) st = .ok { st with workoutCount := l.foldl (fun acc p => setAssoc acc p.1 (some p.2)) st.workoutCount }
  | [], _, st => by rw [List.map_nil, decodeRows_nil, List.foldl_nil]
  | p :: t, hok, st => by
    rw [List.map_cons, decodeRows_cons_ok
      (decodeRow_workoutCount st p.1 p.2 (hok p (List.mem_cons_self _ _))) _,
      decodeRows_workoutCountSegment t (fun q hq => hok q (List.mem_cons_of_mem _ hq)) _,
      List.foldl_cons]

theorem decodeRows_habitHistPart (i : Nat) :
    ∀ (pairs : List (String × String)),
      (∀ ds ∈ pairs, fieldOk ds.1 ∧ '_' ∉ ds.1.data ∧ fieldOk ds.2) →
      (pairs.map Prod.fst).Nodup →
    ∀ (st : DecodedData) (front : List DecHabit) (nm cl : Option String)
      (hist : List (String × Option String)),
      st.habitsData = front ++ [⟨nm, cl, hist⟩] → front.length = i →
      (∀ d ∈ pairs.map Prod.fst, d ∉ hist.map Prod.fst) →
      decodeRows stdHeaderList (pairs.map (fun ds => String.mk (renderRow (habitHistRow i ds.1 ds.2)))) st = .ok { st with habitsData := front ++ [⟨nm, cl, hist ++ liftStatusHist pairs⟩] }
  | [], _, _, st, front, nm, cl, hist, hst, hlen, _ => by
    rw [show liftStatusHist [] = [] from rfl, List.append_nil, ← hst, List.map_nil,
      decodeRows_nil]
  | ds :: t, hok, hnd, st, front, nm, cl, hist, hst, hlen, hfresh => by
    have hd := hok ds (List.mem_cons_self _ _)
    rw [List.map_cons, decodeRows_cons_ok
      (decodeRow_habitHist st i ds.1 ds.2 hd.1 hd.2.1 hd.2.2 front ⟨nm, cl, hist⟩ hst hlen) _]
    have hset : setAssoc hist ds.1 (some ds.2) = hist ++ [(ds.1, some ds.2)] :=
      setAssoc_fresh hist ds.1 _ (hfresh ds.1 (by simp))
    rw [hset, decodeRows_habitHistPart i t (fun x hx => hok x (List.mem_cons_of_mem _ hx))
      (List.Nodup.of_cons hnd) _ front nm cl (hist ++ [(ds.1, some ds.2)]) rfl hlen ?fr]
    case fr =>
      intro d hdm
      simp only [List.map_append, List.map_cons, List.map_nil, List.mem_append,
        List.mem_cons, List.not_mem_nil]
      push_neg
      refine ⟨hfresh d (by simp [hdm]), ?_, fun hf => hf⟩
      intro hdd
      exact (List.nodup_cons.mp hnd).1 (hdd ▸ hdm)
    simp only [liftStatusHist, List.map_cons, List.append_assoc, List.singleton_append]

theorem decodeRows_oneHabit (i : Nat) (hb : Habit) (hok : habitOk hb)
    (st : DecodedData) (hlen : st.habitsData.length = i) :
    decodeRows stdHeaderList (String.mk (renderRow (habitRow i hb)) :: hb.history.map (fun ds => String.mk (renderRow (habitHistRow i ds.1 ds.2)))) st = .ok { st with habitsData := st.habitsData ++ [liftHabit hb] } := by
  rw [decodeRows_cons_ok (decodeRow_habit st i hb hok.1 hok.2.1 hlen) _,
    decodeRows_habitHistPart i hb.history hok.2.2.2 hok.2.2.1 _ st.habitsData
      (some hb.name) (some hb.color) [] rfl hlen (by simp)]
  rfl

theorem decodeRows_habitsSegment :
    ∀ (hs : List Habit), (∀ hb ∈ hs, habitOk hb) →
    ∀ (n : Nat) (st : DecodedData), st.habitsData.length = n →
      decodeRows stdHeaderList (((hs.enumFrom n).map (fun ih => String.mk (renderRow (habitRow ih.1 ih.2)) :: ih.2.history.map (fun ds => String.mk (renderRow (habitHistRow ih.1 ds.1 ds.2))))).flatten) st = .ok { st with habitsData := st.habitsData ++ hs.map liftHabit }
  | [], _, n, st, hlen => by
    rw [show List.enumFrom n ([] : List Habit) = [] from rfl, List.map_nil,
      show ([] : List (List String)).flatten = [] from rfl, decodeRows_nil,
      List.map_nil, List.append_nil]
  | hb :: t, hok, n, st, hlen => by
    rw [List.enumFrom, List.map_cons, List.flatten_cons]
    have h1 := decodeRows_oneHabit n hb (hok hb (List.mem_cons_self _ _)) st hlen
    rw [decodeRows_append_ok h1 _,
      decodeRows_habitsSegment t (fun x hx => hok x (List.mem_cons_of_mem _ hx))
        (n + 1) { st with habitsData := st.habitsData ++ [liftHabit hb] } (by simp [hlen])]
    simp only [List.map_cons, List.append_assoc, List.singleton_append]

/-! #### Every emitted row is cell-safe -/

theorem cellsOk_addRow (dt k : String) (v : Option String)
    (hdt : fieldOk dt) (hk : fieldOk k) (hv : cellOk v) :
    ∀ x ∈ addRow dt k v, cellOk x := by
  intro x hx
  unfold addRow at hx
  simp only [List.mem_cons, List.not_mem_nil, or_false] at hx
  rcases hx with rfl | rfl | rfl | rfl | rfl | rfl | rfl | rfl | rfl | rfl | rfl | rfl
  · exact hdt
  · exact hk
  · exact hv
  all_goals decide

theorem cellsOk_intakeHistRow (dt d : String) (i : Nat) (e : IntakeEntry)
    (hdt : fieldOk dt) (hd : fieldOk d) (hts : fieldOk e.timestamp) :
    ∀ x ∈ intakeHistRow dt d i e, cellOk x := by
  intro x hx
  unfold intakeHistRow at hx
  simp only [List.mem_cons, List.not_mem_nil, or_false] at hx
  rcases hx with rfl | rfl | rfl | rfl | rfl | rfl | rfl | rfl | rfl | rfl | rfl | rfl
  · exact hdt
  · exact fieldOk_underscore d (natDecimalStr i) hd (fieldOk_natDecimalStr i)
  · decide
  · exact hd
  · exact fieldOk_intDecimalStr e.amount
  · exact hts
  all_goals decide

theorem cellsOk_workoutStateRow (t : String) (w : WorkoutState) (ht : fieldOk t) :
    ∀ x ∈ workoutStateRow t w, cellOk x := by
  intro x hx
  unfold workoutStateRow at hx
  simp only [List.mem_cons, List.not_mem_nil, or_false] at hx
  rcases hx with rfl | rfl | rfl | rfl | rfl | rfl | rfl | rfl | rfl | rfl | rfl | rfl
  · decide
  · exact ht
  · decide
  · decide
  · decide
  · decide
  · exact ht
  · decide
  · decide
  · decide
  · cases w.completed <;> decide
  · exact fieldOk_intDecimalStr w.order

theorem cellsOk_workoutCountRow (t : String) (c : Int) (ht : fieldOk t) :
    ∀ x ∈ workoutCountRow t c, cellOk x := by
  intro x hx
  unfold workoutCountRow at hx
  simp only [List.mem_cons, List.not_mem_nil, or_false] at hx
  rcases hx with rfl | rfl | rfl | rfl | rfl | rfl | rfl | rfl | rfl | rfl | rfl | rfl
  · decide
  · exact ht
  · decide
  · decide
  · decide
  · decide
  · exact ht
  · exact fieldOk_intDecimalStr c
  all_goals decide

theorem cellsOk_workoutHistRow (d : String) (i : Nat) (e : WEntry)
    (hd : fieldOk d) (hts : fieldOk e.timestamp) (hwt : fieldOk e.wtype) :
    ∀ x ∈ workoutHistRow d i e, cellOk x := by
  intro x hx
  unfold workoutHistRow at hx
  simp only [List.mem_cons, List.not_mem_nil, or_false] at hx
  rcases hx with rfl | rfl | rfl | rfl | rfl | rfl | rfl | rfl | rfl | rfl | rfl | rfl
  · decide
  · exact fieldOk_underscore d (natDecimalStr i) hd (fieldOk_natDecimalStr i)
  · decide
  · exact hd
  · decide
  · exact hts
  · exact hwt
  · exact fieldOk_intDecimalStr e.count
  all_goals decide

theorem cellsOk_habitRow (i : Nat) (hb : Habit) (hn : fieldOk hb.name) (hc : fieldOk hb.color) :
    ∀ x ∈ habitRow i hb, cellOk x := by
  intro x hx
  unfold habitRow at hx
  simp only [List.mem_cons, List.not_mem_nil, or_false] at hx
  rcases hx with rfl | rfl | rfl | rfl | rfl | rfl | rfl | rfl | rfl | rfl | rfl | rfl
  · decide
  · exact fieldOk_natDecimalStr i
  · decide
  · decide
  · decide
  · decide
  · decide
  · decide
  · exact hn
  · exact hc
  all_goals decide

theorem cellsOk_habitHistRow (i : Nat) (d status : String) (hd : fieldOk d)
    (hs : fieldOk status) :
    ∀ x ∈ habitHistRow i d status, cellOk x := by
  intro x hx
  unfold habitHistRow at hx
  simp only [List.mem_cons, List.not_mem_nil, or_false] at hx
  rcases hx with rfl | rfl | rfl | rfl | rfl | rfl | rfl | rfl | rfl | rfl | rfl | rfl
  · decide
  · exact fieldOk_underscore (natDecimalStr i) d (fieldOk_natDecimalStr i) hd
  · exact hs
  · exact hd
  all_goals decide

/-- Every row of an export of a well-formed snapshot is non-empty and made of
cell-safe cells. -/
theorem encodeRows_cellsOk (ed : String) (S : Snapshot) (hok : SnapshotOk ed S) :
    ∀ row ∈ encodeRows ed S, (∀ x ∈ row, cellOk x) ∧ row ≠ [] := by
  obtain ⟨hed, hwg, hwi, hpg, hpi, hwh, hph, hws, hwc, hwoh, hhb, hth, hrem⟩ := hok
  intro row hrow
  unfold encodeRows at hrow
  rw [List.append_assoc, List.append_assoc, List.append_assoc, List.append_assoc,
    List.append_assoc, List.append_assoc, List.append_assoc] at hrow
  rcases List.mem_append.mp hrow with h | hrow
  · simp only [List.mem_cons, List.not_mem_nil, or_false] at h
    rcases h with rfl | rfl | rfl | rfl
    · exact ⟨cellsOk_addRow _ _ _ (by decide) (by decide) (by decide), by unfold addRow; simp⟩
    · exact ⟨cellsOk_addRow _ _ _ (by decide) (by decide) hed, by unfold addRow; simp⟩
    · exact ⟨cellsOk_addRow _ _ _ (by decide) (by decide) hwg, by unfold addRow; simp⟩
    · exact ⟨cellsOk_addRow _ _ _ (by decide) (by decide) hwi, by unfold addRow; simp⟩
  rcases List.mem_append.mp hrow with h | hrow
  · obtain ⟨l, hl, hrl⟩ := List.mem_flatten.mp h
    obtain ⟨p, hp, rfl⟩ := List.mem_map.mp hl
    obtain ⟨ie, hie, rfl⟩ := List.mem_map.mp hrl
    have hpo := hwh.2 p hp
    exact ⟨cellsOk_intakeHistRow _ _ _ _ (by decide) hpo.1
      (hpo.2.2 ie.2 (snd_mem_of_mem_enum hie)), by unfold intakeHistRow; simp⟩
  rcases List.mem_append.mp hrow with h | hrow
  · simp only [List.mem_cons, List.not_mem_nil, or_false] at h
    rcases h with rfl | rfl
    · exact ⟨cellsOk_addRow _ _ _ (by decide) (by decide) hpg, by unfold addRow; simp⟩
    · exact ⟨cellsOk_addRow _ _ _ (by decide) (by decide) hpi, by unfold addRow; simp⟩
  rcases List.mem_append.mp hrow with h | hrow
  · obtain ⟨l, hl, hrl⟩ := List.mem_flatten.mp h
    obtain ⟨p, hp, rfl⟩ := List.mem_map.mp hl
    obtain ⟨ie, hie, rfl⟩ := List.mem_map.mp hrl
    have hpo := hph.2 p hp
    exact ⟨cellsOk_intakeHistRow _ _ _ _ (by decide) hpo.1
      (hpo.2.2 ie.2 (snd_mem_of_mem_enum hie)), by unfold intakeHistRow; simp⟩
  rcases List.mem_append.mp hrow with h | hrow
  · obtain ⟨p, hp, rfl⟩ := List.mem_map.mp h
    exact ⟨cellsOk_workoutStateRow _ _ (hws p hp), by unfold workoutStateRow; simp⟩
  rcases List.mem_append.mp hrow with h | hrow
  · obtain ⟨p, hp, rfl⟩ := List.mem_map.mp h
    exact ⟨cellsOk_workoutCountRow _ _ (hwc p hp), by unfold workoutCountRow; simp⟩
  rcases List.mem_append.mp hrow with h | hrow
  · obtain ⟨l, hl, hrl⟩ := List.mem_flatten.mp h
    obtain ⟨p, hp, rfl⟩ := List.mem_map.mp hl
    obtain ⟨ie, hie, rfl⟩ := List.mem_map.mp hrl
    have hpo := hwoh.2 p hp
    exact ⟨cellsOk_workoutHistRow _ _ _ hpo.1 (hpo.2.2 ie.2 (snd_mem_of_mem_enum hie)).1
      (hpo.2.2 ie.2 (snd_mem_of_mem_enum hie)).2, by unfold workoutHistRow; simp⟩
  rcases List.mem_append.mp hrow with h | hrow
  · obtain ⟨l, hl, hrl⟩ := List.mem_flatten.mp h
    obtain ⟨ih, hih, rfl⟩ := List.mem_map.mp hl
    have hho := hhb ih.2 (snd_mem_of_mem_enum hih)
    rcases List.mem_cons.mp hrl with rfl | hrl
    · exact ⟨cellsOk_habitRow _ _ hho.1 hho.2.1, by unfold habitRow; simp⟩
    · obtain ⟨ds, hds, rfl⟩ := List.mem_map.mp hrl
      have hdso := hho.2.2.2 ds hds
      exact ⟨cellsOk_habitHistRow _ _ _ hdso.1 hdso.2.2, by unfold habitHistRow; simp⟩
  · simp only [List.mem_cons, List.not_mem_nil, or_false] at hrow
    rcases hrow with rfl | rfl
    · exact ⟨cellsOk_addRow _ _ _ (by decide) (by decide) hth, by unfold addRow; simp⟩
    · exact ⟨cellsOk_addRow _ _ _ (by decide) (by decide) hrem, by unfold addRow; simp⟩

/-- Splitting the exported text into lines recovers the header and the
rendered data rows. -/
theorem splitLines_convert (ed : String) (S : Snapshot) (hok : SnapshotOk ed S) :
    splitLines (convertDataToCSV ed S).data
      = headerChars :: (encodeRows ed S).map renderRow := by
  rw [show (convertDataToCSV ed S).data
      = joinChar '\n' (headerChars :: (encodeRows ed S).map renderRow) from rfl]
  apply splitLines_joinChar _ (by simp)
  intro p hp
  rcases List.mem_cons.mp hp with rfl | hp
  · exact ⟨by decide, by decide⟩
  · rcases List.mem_map.mp hp with ⟨row, hrow, rfl⟩
    have hcells := (encodeRows_cellsOk ed S hok row hrow).1
    constructor
    · intro hmem
      exact (mem_renderRow hmem hcells).1 rfl
    · intro hlast
      exact (mem_renderRow (List.mem_of_mem_getLast? hlast) hcells).2 rfl

/-- C1 (amended): for every well-formed snapshot (`SnapshotOk`: distinct object
keys, non-empty per-date entry lists, habit dates without underscores, and no
stored string containing a newline/carriage return or consisting solely of
double quotes), decoding the encoded CSV succeeds and reproduces the water,
protein and workout histories and every habit's history key-for-key and
value-for-value (each source value read back wrapped in `some`, per the
null/empty-string convention). -/
theorem c1_encode_decode_roundtrip (ed now : String) (S : Snapshot) (hok : SnapshotOk ed S) :
    ∃ D : DecodedData,
      parseCSVData now (convertDataToCSV ed S) = .ok D ∧
      D.waterHistory = liftIntakeHist S.waterHistory ∧
      D.proteinHistory = liftIntakeHist S.proteinHistory ∧
      D.workoutHistory = liftWorkoutHist S.workoutHistory ∧
      D.habitsData = S.habitsData.map liftHabit := by
  have hsplit := splitLines_convert ed S hok
  obtain ⟨hed, hwg, hwi, hpg, hpi, hwh, hph, hws, hwc, hwoh, hhb, hth, hrem⟩ := hok
  have hchain : parseCSVData now (convertDataToCSV ed S)
      = .ok { initialData now with
          version := some ((some "2.0").getD ""),
          exportDate := some ((some ed).getD ""),
          waterGoal := some (S.waterGoal.getD ""),
          waterIntake := some (S.waterIntake.getD ""),
          waterHistory := [] ++ liftIntakeHist S.waterHistory,
          proteinGoal := some (S.proteinGoal.getD ""),
          proteinIntake := some (S.proteinIntake.getD ""),
          proteinHistory := [] ++ liftIntakeHist S.proteinHistory,
          workoutState := S.workoutState.foldl
            (fun acc p => setAssoc acc p.1 ⟨p.2.completed, some p.2.order⟩) [],
          workoutCount := S.workoutCount.foldl (fun acc p => setAssoc acc p.1 (some p.2)) [],
          workoutHistory := [] ++ liftWorkoutHist S.workoutHistory,
          habitsData := [] ++ S.habitsData.map liftHabit,
          theme := some (S.theme.getD ""),
          reminder := some (S.reminder.getD "") } := by
    unfold parseCSVData
    rw [hsplit, List.map_cons, List.map_map]
    unfold encodeRows
    simp only [List.map_append, List.map_cons, List.map_nil, List.map_flatten, List.map_map,
      Function.comp_def, List.cons_append, List.nil_append, List.append_assoc]
    rw [parse_headerChars]
    rw [decodeRows_cons_ok (decodeRow_metaVersion _ (some "2.0") (by decide)) _]
    try dsimp only
    rw [decodeRows_cons_ok (decodeRow_metaExportDate _ (some ed) hed) _]
    try dsimp only
    rw [decodeRows_cons_ok (decodeRow_waterGoal _ S.waterGoal hwg) _]
    try dsimp only
    rw [decodeRows_cons_ok (decodeRow_waterIntake _ S.waterIntake hwi) _]
    try dsimp only
    refine Eq.trans (decodeRows_append_ok
      (decodeRows_waterSegment S.waterHistory hwh _ [] ?wh1 ?wh2) _) ?_
    case wh1 => rfl
    case wh2 => simp
    try dsimp only
    rw [decodeRows_cons_ok (decodeRow_proteinGoal _ S.proteinGoal hpg) _]
    try dsimp only
    rw [decodeRows_cons_ok (decodeRow_proteinIntake _ S.proteinIntake hpi) _]
    try dsimp only
    refine Eq.trans (decodeRows_append_ok
      (decodeRows_proteinSegment S.proteinHistory hph _ [] ?ph1 ?ph2) _) ?_
    case ph1 => rfl
    case ph2 => simp
    try dsimp only
    rw [decodeRows_append_ok (decodeRows_workoutStateSegment S.workoutState hws _) _]
    try dsimp only
    rw [decodeRows_append_ok (decodeRows_workoutCountSegment S.workoutCount hwc _) _]
    try dsimp only
    refine Eq.trans (decodeRows_append_ok
      (decodeRows_workoutSegment S.workoutHistory hwoh _ [] ?oh1 ?oh2) _) ?_
    case oh1 => rfl
    case oh2 => simp
    try dsimp only
    rw [show S.habitsData.enum = S.habitsData.enumFrom 0 from rfl]
    refine Eq.trans (decodeRows_append_ok
      (decodeRows_habitsSegment S.habitsData hhb 0 _ ?hb1) _) ?_
    case hb1 => rfl
    try dsimp only
    rw [decodeRows_cons_ok (decodeRow_settingsTheme _ S.theme hth) _]
    try dsimp only
    rw [decodeRows_cons_ok (decodeRow_settingsReminder _ S.reminder hrem) _]
    try dsimp only
    exact decodeRows_nil _ _
  exact ⟨_, hchain, rfl, rfl, rfl, rfl⟩

set_option maxRecDepth 40000 in
/-- C1 counterexample: the snapshot whose single water-history entry has the
one-character timestamp `"` (a non-empty all-quotes string).  Encoding escapes
it to `""""`; the tokenizer's greedy quote pairing reads that back as `""`, so
the decoded history does not reproduce the entry value-for-value even though
no claimed caveat (key order, composite-key format, null/empty convention)
applies. -/
theorem c1_roundtrip_counterexample :
    parseCSVData "now" (convertDataToCSV "ed"
        ⟨none, none, none, none, [("d", [⟨1, "\""⟩])], [], [], [], [], [], none, none⟩)
      = .ok { version := some "2.0", exportDate := some "ed", waterGoal := some "",
              waterIntake := some "", proteinGoal := some "", proteinIntake := some "",
              waterHistory := [("d", [⟨some 1, some "\"\""⟩])], proteinHistory := [],
              workoutState := [], workoutCount := [], workoutHistory := [],
              habitsData := [], theme := some "", reminder := some "" } ∧
      ([("d", [(⟨some 1, some "\"\""⟩ : DecEntry)])]
          : List (String × List DecEntry))
        ≠ liftIntakeHist [("d", [(⟨1, "\""⟩ : IntakeEntry)])] := by
  constructor
  · rfl
  · decide

/-- C1 witness: the amended round trip evaluated on a snapshot with data in
every store section. -/
theorem c1_encode_decode_roundtrip_witness :
    SnapshotOk "2024-01-05T00:00:00.000Z"
        ⟨some "2000", some "500", none, some "30",
          [("2024-01-01", [⟨250, "t1"⟩, ⟨500, "t2"⟩])],
          [("2024-01-02", [⟨30, "t3"⟩])],
          [("gym", ⟨true, 1⟩)], [("gym", 5)],
          [("2024-01-03", [⟨"gym", 2, "t4"⟩])],
          [⟨"Read", "blue", [("2024-01-04", "done")]⟩], some "dark", none⟩ ∧
      (∃ D : DecodedData,
        parseCSVData "now" (convertDataToCSV "2024-01-05T00:00:00.000Z"
            ⟨some "2000", some "500", none, some "30",
              [("2024-01-01", [⟨250, "t1"⟩, ⟨500, "t2"⟩])],
              [("2024-01-02", [⟨30, "t3"⟩])],
              [("gym", ⟨true, 1⟩)], [("gym", 5)],
              [("2024-01-03", [⟨"gym", 2, "t4"⟩])],
              [⟨"Read", "blue", [("2024-01-04", "done")]⟩], some "dark", none⟩)
          = .ok D ∧
        D.waterHistory = liftIntakeHist [("2024-01-01", [⟨250, "t1"⟩, ⟨500, "t2"⟩])] ∧
        D.proteinHistory = liftIntakeHist [("2024-01-02", [⟨30, "t3"⟩])] ∧
        D.workoutHistory = liftWorkoutHist [("2024-01-03", [⟨"gym", 2, "t4"⟩])] ∧
        D.habitsData = List.map liftHabit [⟨"Read", "blue", [("2024-01-04", "done")]⟩]) :=
  ⟨by decide, c1_encode_decode_roundtrip "2024-01-05T00:00:00.000Z" "now" _ (by decide)⟩

/-! ### C6: import atomicity via rollback -/

/-- The re-stringified sections handed to `importData`'s write phase; `none`
stands for an absent section/field (and is falsy like the empty string). -/
structure ImportPayload where
  waterGoal : Option String
  waterIntake : Option String
  waterHistory : Option String
  proteinGoal : Option String
  proteinIntake : Option String
  proteinHistory : Option String
  workoutState : Option String
  workoutCount : Option String
  workoutHistory : Option String
  habitsData : Option String
  theme : Option String
  reminder : Option String
deriving DecidableEq, Repr

/-- One conditional `localStorage.setItem`: performed only when the slot is
truthy (`if (x) localStorage.setItem(key, x)`), i.e. present and non-empty. -/
def slotWrites (key : String) (v : Option String) : List (String × String) :=
  match v with
  | none => []
  | some s => if s.isEmpty then [] else [(key, s)]

/-- The write sequence of `importData` (core-scripts.js, lines 506–552), in
source order, using the source's storage keys (`STORAGE_KEYS.GOAL_PREFIX +
'water'` etc.). -/
def importWrites (p : ImportPayload) : List (String × String) :=
  slotWrites "goal_water" p.waterGoal ++ slotWrites "intake_water" p.waterIntake ++
  slotWrites "history_water" p.waterHistory ++ slotWrites "goal_protein" p.proteinGoal ++
  slotWrites "intake_protein" p.proteinIntake ++
  slotWrites "history_protein" p.proteinHistory ++
  slotWrites "workout_state" p.workoutState ++ slotWrites "workout_count" p.workoutCount ++
  slotWrites "workout_history" p.workoutHistory ++ slotWrites "habits_data" p.habitsData ++
  slotWrites "app_theme" p.theme ++ slotWrites "global_reminder" p.reminder

/-- Run the writes left to right against the store (an ordered association
list with the distinct keys of `localStorage`); `fail n = true` makes the
`n`-th `setItem` call throw (storage error), aborting the loop with the index
of the failed call. -/
def runWrites (fail : Nat → Bool) : List (String × String) → List (String × String) → Nat →
    Except Nat (List (String × String))
  | [], st, _ => .ok st
  | (k, v) :: ws, st, n =>
    if fail n then .error n
    else runWrites fail ws (setAssoc st k v) (n + 1)

/-- The write/rollback core of `importData` (core-scripts.js, lines 497–571):
back up every key/value of the store, attempt the writes, and when one throws,
clear the store and replay the backup in key order before surfacing the error
(returned as the second component). -/
def importData (fail : Nat → Bool) (p : ImportPayload)
    (store : List (String × String)) : List (String × String) × Option Nat :=
  match runWrites fail (importWrites p) store 0 with
  | .ok st => (st, none)
  | .error n => (store.foldl (fun acc kv => setAssoc acc kv.1 kv.2) [], some n)

/-- Replaying a backup with distinct keys over a cleared store rebuilds the
backup exactly. -/
theorem foldl_setAssoc_restore :
    ∀ (store acc : List (String × String)),
      ((acc ++ store).map Prod.fst).Nodup →
      store.foldl (fun acc kv => setAssoc acc kv.1 kv.2) acc = acc ++ store
  | [], acc, _ => by simp
  | (k, v) :: t, acc, hnd => by
    rw [List.foldl_cons]
    have hnd' : ((acc.map Prod.fst) ++ k :: t.map Prod.fst).Nodup := by
      simpa using hnd
    obtain ⟨h1, h2, hdis⟩ := List.nodup_append.mp hnd'
    have hk : k ∉ acc.map Prod.fst := fun hmem => hdis hmem (List.mem_cons_self _ _)
    rw [setAssoc_fresh acc k v hk,
      foldl_setAssoc_restore t (acc ++ [(k, v)]) (by simpa using hnd)]
    simp

/-- C6: import is atomic via full rollback: with a backup of every key of the
store taken before the first write, if any conditional write throws, the store
is restored to exactly its pre-import key/value contents before the error is
surfaced (the model assumes, as the source's catch block does, that the replay
writes themselves succeed). -/
theorem c6_import_rollback (fail : Nat → Bool) (p : ImportPayload)
    (store : List (String × String)) (hnd : (store.map Prod.fst).Nodup)
    (n : Nat) (hfail : (importData fail p store).2 = some n) :
    (importData fail p store).1 = store := by
  unfold importData at hfail ⊢
  cases hrun : runWrites fail (importWrites p) store 0 with
  | ok st =>
    rw [hrun] at hfail
    exact Option.noConfusion hfail
  | error m =>
    exact (foldl_setAssoc_restore store [] (by simpa using hnd)).trans
      (List.nil_append store)

/-- C6 witness: a payload whose third attempted write (index 2) throws; the
two-key store is restored verbatim. -/
theorem c6_import_rollback_witness :
    ((([("goal_water", "1000"), ("app_theme", "light")]
        : List (String × String)).map Prod.fst).Nodup) ∧
      (importData (fun n => decide (n = 2))
          ⟨some "2000", some "500", some "h", none, none, none, none, none, none, none,
            none, none⟩
          [("goal_water", "1000"), ("app_theme", "light")]).2 = some 2 ∧
      (importData (fun n => decide (n = 2))
          ⟨some "2000", some "500", some "h", none, none, none, none, none, none, none,
            none, none⟩
          [("goal_water", "1000"), ("app_theme", "light")]).1
        = [("goal_water", "1000"), ("app_theme", "light")] :=
  ⟨by decide, by decide,
    c6_import_rollback _ _ _ (by decide) 2 (by decide)⟩

end Tracker
